import Mathlib

/-!
Shallow embedding of the Resource Allocation Graph visualizer core
(`RAGState`, the avoidance engine, and the `Simulator` history manager),
translated from the JavaScript source.  JavaScript objects keyed by
strings are modelled as association lists in insertion order (matching
JS string-key enumeration order); JS numbers used as counts are `Nat`
after the source's `Math.max(1, Number(x) || 1)` clamp, availability is
`Int` because `total - assigned` may be computed on arbitrary states.
A possibly-non-numeric count argument is `Option Int` (`none` models a
non-numeric / missing value for which `Number(x)` is falsy).
-/

inductive PState
  | ready
  | blocked
deriving DecidableEq, Repr

structure Process where
  name : String
  state : PState
deriving DecidableEq, Repr

structure Resource where
  name : String
  total : Nat
deriving DecidableEq, Repr

structure WaitEntry where
  process : String
  count : Nat
deriving DecidableEq, Repr

structure Event where
  type : String
  process : String
  resource : String
  count : Option Int
deriving DecidableEq, Repr

abbrev AssignMap := List (String × Nat)
abbrev AssignTable := List (String × AssignMap)
abbrev WaitTable := List (String × List WaitEntry)

/-- Association-list read: the value stored at the first occurrence of key
`k` (JS property read). -/
def getA {β : Type} : List (String × β) → String → Option β
  | [], _ => none
  | (k', v) :: t, k => if k' = k then some v else getA t k

/-- Association-list write: replace the value at the first occurrence of
key `k`, or append the new key (JS property assignment, which preserves
insertion order). -/
def setA {β : Type} : List (String × β) → String → β → List (String × β)
  | [], k, v => [(k, v)]
  | (k', v') :: t, k, v => if k' = k then (k, v) :: t else (k', v') :: setA t k v

/-- Association-list delete of the first occurrence of key `k`
(JS `delete obj[k]`). -/
def delA {β : Type} : List (String × β) → String → List (String × β)
  | [], _ => []
  | (k', v') :: t, k => if k' = k then t else (k', v') :: delA t k

/-- `Object.values(m).reduce((a,b) => a+b, 0)`. -/
def sumVals (m : AssignMap) : Nat := (m.map (·.2)).sum

structure RAGState where
  processes : List Process
  resources : List Resource
  assignments : AssignTable
  waitingRequests : WaitTable
  eventQueue : List Event
  step : Nat
  logs : List String
  avoidance : Bool
deriving DecidableEq, Repr

/-- `new RAGState()`. -/
def RAGState.init : RAGState :=
  { processes := [], resources := [], assignments := [], waitingRequests := []
    eventQueue := [], step := 0, logs := [], avoidance := false }

def RAGState.getProcess (s : RAGState) (name : String) : Option Process :=
  s.processes.find? (fun p => p.name = name)

def RAGState.getResource (s : RAGState) (name : String) : Option Resource :=
  s.resources.find? (fun r => r.name = name)

/-- The two independent `if (!map) map = ...` statements of
`ensureResourceMaps` (the first never touches `waitingRequests`, so the
two updates commute into one record update). -/
def RAGState.ensureResourceMaps (s : RAGState) (resName : String) : RAGState :=
  { s with
    assignments := if (getA s.assignments resName).isNone then
      setA s.assignments resName [] else s.assignments
    waitingRequests := if (getA s.waitingRequests resName).isNone then
      setA s.waitingRequests resName [] else s.waitingRequests }

/-- `totalInstances − Σ held`; 0 for an unknown resource.  `Int` because on
an arbitrary state the ledger may exceed the total. -/
def RAGState.availableOf (s : RAGState) (resName : String) : Int :=
  match s.getResource resName with
  | none => 0
  | some r => (r.total : Int) - (sumVals ((getA s.assignments resName).getD []) : Int)

/-- The wait queue stored for `resName` (empty when absent). -/
def getQ (s : RAGState) (resName : String) : List WaitEntry :=
  (getA s.waitingRequests resName).getD []

/-- `Math.max(1, Number(count) || 1)`: a missing/non-numeric count
(`none`) and the falsy numeric 0 both default to 1, then the value is
clamped to at least 1. -/
def clampCount : Option Int → Nat
  | none => 1
  | some v => (max 1 (if v = 0 then 1 else v)).toNat

def RAGState.addProcess (s : RAGState) (name : String) : RAGState × Bool :=
  if name = "" ∨ (s.getProcess name).isSome then (s, false)
  else ({ s with processes := s.processes ++ [⟨name, .ready⟩] }, true)

def RAGState.addResource (s : RAGState) (name : String) (instances : Option Int) :
    RAGState × Bool :=
  if name = "" ∨ (s.getResource name).isSome then (s, false)
  else
    let res : Resource := ⟨name, clampCount instances⟩
    (RAGState.ensureResourceMaps { s with resources := s.resources ++ [res] } name, true)

def RAGState.enqueueEvent (s : RAGState) (evt : Event) : RAGState :=
  { s with eventQueue := s.eventQueue ++ [evt] }

def RAGState.clearEvents (s : RAGState) : RAGState :=
  { s with eventQueue := [] }

def RAGState.pushLog (s : RAGState) (m : String) : RAGState :=
  { s with logs := s.logs ++ [m] }

/-- Mutate the state of the first process named `name` (the object that
`getProcess` returns); no-op when absent, matching `if (proc) ...`. -/
def setProcState : List Process → String → PState → List Process
  | [], _, _ => []
  | p :: t, name, st =>
    if p.name = name then { p with state := st } :: t else p :: setProcState t name st

/- ---------------- Wait-for graph and cycle detection ---------------- -/

/-- `adj[w].add(h)` for a `Set`-valued adjacency object: append `h` to the
edge list of `w` unless already present.  An unregistered waiter has no
entry and the add is dropped (the JS would throw there; such a state is
unreachable because queue entries are only created for validated
processes). -/
def addEdge (adj : List (String × List String)) (w h : String) :
    List (String × List String) :=
  adj.map (fun e => if e.1 = w then (e.1, if h ∈ e.2 then e.2 else e.2 ++ [h]) else e)

/-- `RAGState.buildWFG`: every waiting entry whose request exceeds current
availability contributes an edge from the waiter to every current holder. -/
def RAGState.buildWFG (s : RAGState) : List (String × List String) :=
  let adj0 := s.processes.map (fun p => (p.name, ([] : List String)))
  s.resources.foldl (fun adj r =>
    let holders := ((getA s.assignments r.name).getD []).map (·.1)
    let avail := s.availableOf r.name
    ((getA s.waitingRequests r.name).getD []).foldl (fun adj req =>
      if (req.count : Int) ≤ avail then adj
      else holders.foldl (fun adj h => addEdge adj req.process h) adj) adj) adj0

structure DfsSt where
  color : List (String × Nat)
  stack : List String
  cycles : List (List String)
deriving Repr

/-- JS `Array.prototype.lastIndexOf`. -/
def lastIndexOf (l : List String) (v : String) : Option Nat :=
  match l.reverse.findIdx? (· = v) with
  | some i => some (l.length - 1 - i)
  | none => none

/-- The recursive three-color `dfs` of `detectCyclesInAdj`.  The fuel
bounds the recursion depth; each nested call enters a still-white node, so
a fuel of the number of adjacency keys never runs out. -/
def dfsVisit (adj : List (String × List String)) : Nat → String → DfsSt → DfsSt
  | 0, _, st => st
  | fuel + 1, u, st =>
    let st1 : DfsSt := { st with color := setA st.color u 1, stack := st.stack ++ [u] }
    let st2 := ((getA adj u).getD []).foldl (fun acc v =>
      match (getA acc.color v).getD 0 with
      | 0 => dfsVisit adj fuel v acc
      | 1 =>
        match lastIndexOf acc.stack v with
        | some i => { acc with cycles := acc.cycles ++ [acc.stack.drop i] }
        | none => acc
      | _ => acc) st1
    { st2 with stack := st2.stack.dropLast, color := setA st2.color u 2 }

structure CycleInfo where
  hasCycle : Bool
  cycles : List (List String)
  involved : List String
deriving DecidableEq, Repr

def detectCyclesInAdj (adj : List (String × List String)) : CycleInfo :=
  let st0 : DfsSt := ⟨adj.map (fun e => (e.1, 0)), [], []⟩
  let fin := adj.foldl (fun st e =>
    if (getA st.color e.1).getD 0 = 0 then dfsVisit adj adj.length e.1 st else st) st0
  let involved := fin.cycles.foldl (fun acc c =>
    c.foldl (fun acc x => if x ∈ acc then acc else acc ++ [x]) acc) []
  ⟨!fin.cycles.isEmpty, fin.cycles, involved⟩

structure DeadlockInfo where
  hasCycle : Bool
  cycles : List (List String)
  involved : List String
  wfg : List (String × List String)
deriving DecidableEq, Repr

def RAGState.detectDeadlock (s : RAGState) : DeadlockInfo :=
  let wfg := s.buildWFG
  let r := detectCyclesInAdj wfg
  ⟨r.hasCycle, r.cycles, r.involved, wfg⟩

/- ---------------- Cycle classification (definite vs potential) ------- -/

/-- One resource matches the WFG edge `waiter → holder` when the waiter has
a queue entry on it and the holder holds some of it. -/
def edgeMatches (s : RAGState) (r : Resource) (waiter holder : String) : Bool :=
  (((getA s.waitingRequests r.name).getD []).any (fun req => req.process = waiter)) &&
  ((((getA s.assignments r.name).getD []).map (·.1)).contains holder)

/-- Scan all resources for the edge `waiter → holder`; `none` models the
early `return false` on a multi-instance match, otherwise `some foundEdge`. -/
def edgeScan (s : RAGState) (waiter holder : String) :
    List Resource → Bool → Option Bool
  | [], found => some found
  | r :: rest, found =>
    if edgeMatches s r waiter holder then
      if 1 < r.total then none else edgeScan s waiter holder rest true
    else edgeScan s waiter holder rest found

def pairsAllSingle (s : RAGState) : List (String × String) → Bool
  | [] => true
  | (w, h) :: rest =>
    match edgeScan s w h s.resources false with
    | none => false
    | some found => if found then pairsAllSingle s rest else false

/-- `cycleUsesOnlySingleInstanceResources(cycleProcesses, state)`: walk the
consecutive (waiter, holder) pairs of the cycle (wrapping around). -/
def RAGState.cycleUsesOnlySingleInstanceResources (cyc : List String) (s : RAGState) :
    Bool :=
  pairsAllSingle s (cyc.zip (cyc.rotate 1))

structure DefiniteCheck where
  hasCycle : Bool
  definite : Bool
  deadInfo : DeadlockInfo
deriving DecidableEq, Repr

def RAGState.stateHasDefiniteCycle (next : RAGState) : DefiniteCheck :=
  let deadInfo := next.detectDeadlock
  if deadInfo.hasCycle = false then ⟨false, false, deadInfo⟩
  else ⟨true, deadInfo.cycles.all
    (fun c => RAGState.cycleUsesOnlySingleInstanceResources c next), deadInfo⟩

/- ---------------- Snapshots (serialize / from) ---------------- -/

/-- `structuredClone` on value-semantics data. -/
def deepClone {α : Type} (x : α) : α := x

/-- The plain-data record produced by `RAGState.serialize` and stored in
the `Simulator` history. -/
structure Snapshot where
  processes : List Process
  resources : List Resource
  assignments : AssignTable
  waitingRequests : WaitTable
  eventQueue : List Event
  step : Nat
  logs : List String
  avoidance : Bool
deriving DecidableEq, Repr

def RAGState.serialize (s : RAGState) : Snapshot :=
  { processes := s.processes.map (fun p => ⟨p.name, p.state⟩)
    resources := s.resources.map (fun r => ⟨r.name, r.total⟩)
    assignments := deepClone s.assignments
    waitingRequests := deepClone s.waitingRequests
    eventQueue := deepClone s.eventQueue
    step := s.step
    logs := deepClone s.logs
    avoidance := s.avoidance }

/-- `RAGState.from(data)`; the `Resource` constructor re-clamps the total
to at least 1 (`Math.max(1, Number(total) || 1)`). -/
def RAGState.fromData (d : Snapshot) : RAGState :=
  { processes := d.processes.map (fun p => ⟨p.name, p.state⟩)
    resources := d.resources.map (fun r => ⟨r.name, max 1 (if r.total = 0 then 1 else r.total)⟩)
    assignments := deepClone d.assignments
    waitingRequests := deepClone d.waitingRequests
    eventQueue := deepClone d.eventQueue
    step := d.step
    logs := deepClone d.logs
    avoidance := d.avoidance }

/- ---------------- Avoidance engine ---------------- -/

/-- The hypothetical grant applied to a state (the mutation
`addWaitWouldCreateDefiniteCycle` performs on its clone). -/
def RAGState.applyGrantHyp (s : RAGState) (procName resName : String) (count : Nat) :
    RAGState :=
  let s1 := s.ensureResourceMaps resName
  let m := (getA s1.assignments resName).getD []
  let old := (getA m procName).getD 0
  let a := setA s1.assignments resName
    (setA m procName (old + (max 1 (if count = 0 then 1 else count))))
  { s1 with assignments := a }

/-- The hypothetical wait entry applied to a state. -/
def RAGState.applyWaitHyp (s : RAGState) (procName resName : String) (count : Nat) :
    RAGState :=
  let s1 := s.ensureResourceMaps resName
  let q := (getA s1.waitingRequests resName).getD []
  let entry : WaitEntry := ⟨procName, max 1 (if count = 0 then 1 else count)⟩
  let w := setA s1.waitingRequests resName (q ++ [entry])
  let s2 := { s1 with waitingRequests := w }
  { s2 with processes := setProcState s2.processes procName .blocked }

def RAGState.grantWouldCreateDefiniteCycle (s : RAGState) (procName resName : String)
    (count : Nat) : DefiniteCheck :=
  RAGState.stateHasDefiniteCycle
    (RAGState.applyGrantHyp (RAGState.fromData s.serialize) procName resName count)

def RAGState.addWaitWouldCreateDefiniteCycle (s : RAGState) (procName resName : String)
    (count : Nat) : DefiniteCheck :=
  RAGState.stateHasDefiniteCycle
    (RAGState.applyWaitHyp (RAGState.fromData s.serialize) procName resName count)

/- ---------------- Log messages ---------------- -/

def cyclesText (cycles : List (List String)) : String :=
  String.intercalate " " (cycles.map (fun c => "[" ++ String.intercalate "->" c ++ "]"))

def avoidedGrantLog (count : Nat) (resName procName : String)
    (cycles : List (List String)) : String :=
  let cyc := cyclesText cycles
  s!"Avoided (definite cycle): granting {count} {resName} to {procName} would create {cyc}"

def allowedGrantLog (count : Nat) (resName procName : String) : String :=
  s!"Allowed (potential cycle): granting {count} {resName} to {procName} may form a multi-instance cycle."

def avoidedWaitLog (procName resName : String) (cycles : List (List String)) : String :=
  let cyc := cyclesText cycles
  s!"Avoided (definite cycle): queuing wait {procName} → {resName} would create {cyc}"

def allowedWaitLog (procName resName : String) : String :=
  s!"Allowed (potential cycle): queuing wait {procName} → {resName} may form a multi-instance cycle."

def grantedLog (procName : String) (count : Nat) (resName : String) (avail : Int) :
    String :=
  let a := toString avail
  s!"Granted: {procName} <- {count} {resName} (avail {a})"

def blockedLog (procName : String) (count : Nat) (resName : String) : String :=
  s!"Blocked: {procName} waiting for {count} {resName}"

def noopReleaseLog (procName resName : String) : String :=
  s!"No-op: {procName} holds 0 of {resName}"

def releasedLog (procName : String) (rel : Nat) (resName : String) (avail : Int) :
    String :=
  let a := toString avail
  s!"Released: {procName} -> {rel} {resName} (avail {a})"

def unblockedLog (procName : String) (count : Nat) (resName : String) : String :=
  s!"Unblocked: {procName} granted {count} {resName} from queue"

def queueAllowedLog (procName resName : String) : String :=
  s!"Queue grant allowed (potential cycle) for {procName} on {resName}."

/- ---------------- Request / Release / tryGrantWaiting ---------------- -/

inductive ReqOutcome
  | fail (reason : String)
  | granted
  | queued
deriving DecidableEq, Repr

inductive RelOutcome
  | fail (reason : String)
  | released (n : Nat)
deriving DecidableEq, Repr

/-- The grant commit shared by both arms of `request`'s `canGrant` branch
(the JS duplicates these statements verbatim in each arm). -/
def requestCommitGrant (s : RAGState) (procName resName : String) (k : Nat) :
    RAGState × ReqOutcome :=
  let m := (getA s.assignments resName).getD []
  let old := (getA m procName).getD 0
  let s1 := { s with assignments := setA s.assignments resName (setA m procName (old + k)) }
  (s1.pushLog (grantedLog procName k resName (s1.availableOf resName)), .granted)

/-- The enqueue commit shared by both arms of `request`'s blocked branch. -/
def requestCommitQueue (s : RAGState) (procName resName : String) (k : Nat) :
    RAGState × ReqOutcome :=
  let q := (getA s.waitingRequests resName).getD []
  let entry : WaitEntry := ⟨procName, k⟩
  let s1 := { s with waitingRequests := setA s.waitingRequests resName (q ++ [entry]) }
  let s2 := { s1 with processes := setProcState s1.processes procName .blocked }
  (s2.pushLog (blockedLog procName k resName), .queued)

def RAGState.request (s : RAGState) (procName resName : String) (count : Option Int)
    (enqueueIfBlocked : Bool) : RAGState × ReqOutcome :=
  match s.getProcess procName, s.getResource resName with
  | some _, some _ =>
    let s1 := s.ensureResourceMaps resName
    let k := clampCount count
    let avail := s1.availableOf resName
    if (k : Int) ≤ avail then
      if s1.avoidance then
        let chk := s1.grantWouldCreateDefiniteCycle procName resName k
        if chk.hasCycle && chk.definite then
          (s1.pushLog (avoidedGrantLog k resName procName chk.deadInfo.cycles),
           .fail "Avoided cycle (definite)")
        else
          let s2 := if chk.hasCycle && !chk.definite then
            s1.pushLog (allowedGrantLog k resName procName) else s1
          requestCommitGrant s2 procName resName k
      else requestCommitGrant s1 procName resName k
    else
      if enqueueIfBlocked then
        if s1.avoidance then
          let chk := s1.addWaitWouldCreateDefiniteCycle procName resName k
          if chk.hasCycle && chk.definite then
            (s1.pushLog (avoidedWaitLog procName resName chk.deadInfo.cycles),
             .fail "Avoided waiting cycle (definite)")
          else
            let s2 := if chk.hasCycle && !chk.definite then
              s1.pushLog (allowedWaitLog procName resName) else s1
            requestCommitQueue s2 procName resName k
        else requestCommitQueue s1 procName resName k
      else (s1, .fail "Insufficient resources and not enqueued")
  | _, _ => (s, .fail "Invalid process or resource")

/-- The grant performed inside the `tryGrantWaiting` loop body: commit the
assignment, splice the entry out of the queue (leaving `kept ++ rest`),
mark the process ready, log. -/
def grantFromQueue (s : RAGState) (resName : String) (req : WaitEntry)
    (kept rest : List WaitEntry) : RAGState :=
  let m := (getA s.assignments resName).getD []
  let old := (getA m req.process).getD 0
  let a := setA s.assignments resName (setA m req.process (old + req.count))
  let s1 := { s with assignments := a }
  let s2 := { s1 with waitingRequests := setA s1.waitingRequests resName (kept ++ rest) }
  let s3 := { s2 with processes := setProcState s2.processes req.process .ready }
  s3.pushLog (unblockedLog req.process req.count resName)

/-- The `while (i < queue.length)` loop of `tryGrantWaiting`, with the
index `i` represented by the already-scanned prefix `kept`; the state's
stored queue is always `kept ++ rest`. -/
def tryGrantWaitingAux (resName : String) :
    List WaitEntry → List WaitEntry → RAGState → Bool → RAGState × Bool
  | [], _, s, changed => (s, changed)
  | req :: rest, kept, s, changed =>
    let avail := s.availableOf resName
    if (req.count : Int) ≤ avail then
      if s.avoidance then
        let chk := s.grantWouldCreateDefiniteCycle req.process resName req.count
        if chk.hasCycle && chk.definite then
          tryGrantWaitingAux resName rest (kept ++ [req]) s changed
        else
          let s1 := if chk.hasCycle && !chk.definite then
            s.pushLog (queueAllowedLog req.process resName) else s
          tryGrantWaitingAux resName rest kept (grantFromQueue s1 resName req kept rest) true
      else tryGrantWaitingAux resName rest kept (grantFromQueue s resName req kept rest) true
    else tryGrantWaitingAux resName rest (kept ++ [req]) s changed

def RAGState.tryGrantWaiting (s : RAGState) (resName : String) : RAGState × Bool :=
  let s1 := s.ensureResourceMaps resName
  tryGrantWaitingAux resName (getQ s1 resName) [] s1 false

def RAGState.release (s : RAGState) (procName resName : String) (count : Option Int) :
    RAGState × RelOutcome :=
  match s.getProcess procName, s.getResource resName with
  | some _, some _ =>
    let s1 := s.ensureResourceMaps resName
    let k := clampCount count
    let m := (getA s1.assignments resName).getD []
    let held := (getA m procName).getD 0
    if held = 0 then (s1.pushLog (noopReleaseLog procName resName), .released 0)
    else
      let rel := min k held
      let m2 := setA m procName (held - rel)
      let m3 := if held - rel = 0 then delA m2 procName else m2
      let s2 := { s1 with assignments := setA s1.assignments resName m3 }
      let s3 := s2.pushLog (releasedLog procName rel resName (s2.availableOf resName))
      ((s3.tryGrantWaiting resName).1, .released rel)
  | _, _ => (s, .fail "Invalid process or resource")

/- ---------------- Simulation step ---------------- -/

/-- Whether process `name` has a wait-queue entry on any resource (the scan
at the end of `stepForward`). -/
def RAGState.procIsWaiting (s : RAGState) (name : String) : Bool :=
  s.resources.any (fun r =>
    ((getA s.waitingRequests r.name).getD []).any (fun req => req.process = name))

/-- The final loop of `stepForward`: recompute every process's
blocked/ready state from the wait queues. -/
def RAGState.recomputeStates (s : RAGState) : RAGState :=
  { s with processes := s.processes.map (fun p =>
      { p with state := if s.procIsWaiting p.name then .blocked else .ready }) }

/-- `stepForward` before its final state-recompute loop: bump the step
counter, then either dispatch the head event or auto-grant across all
resources. -/
def RAGState.stepForwardCore (s : RAGState) (autoGrant : Bool) : RAGState :=
  let s1 := { s with step := s.step + 1 }
  match s1.eventQueue with
  | evt :: rest =>
    let s1 := { s1 with eventQueue := rest }
    if evt.type = "request" then (s1.request evt.process evt.resource evt.count true).1
    else if evt.type = "release" then (s1.release evt.process evt.resource evt.count).1
    else s1
  | [] =>
    if autoGrant then
      let out := s1.resources.foldl (fun (acc : RAGState × Bool) (r : Resource) =>
        let o := RAGState.tryGrantWaiting acc.1 r.name
        (o.1, o.2 || acc.2)) (s1, false)
      if out.2 then out.1
      else out.1.pushLog "No-op step: no pending events and nothing can be granted."
    else s1

def RAGState.stepForward (s : RAGState) (autoGrant : Bool) : RAGState :=
  (s.stepForwardCore autoGrant).recomputeStates

/- ---------------- Simulator (history manager) ---------------- -/

structure Simulator where
  state : RAGState
  history : List Snapshot
  playing : Bool
  speed : Rat
deriving DecidableEq, Repr

def Simulator.new : Simulator :=
  { state := RAGState.init, history := [RAGState.init.serialize]
    playing := false, speed := 1 }

def Simulator.setAvoidance (sim : Simulator) (on_ : Bool) : Simulator :=
  { sim with state := { sim.state with avoidance := on_ } }

/-- `Math.max(0.1, Number(v) || 1)`. -/
def Simulator.setSpeed (sim : Simulator) (v : Option Rat) : Simulator :=
  { sim with speed :=
      match v with
      | none => 1
      | some q => max (1 / 10 : Rat) (if q = 0 then 1 else q) }

def Simulator.snapshot (sim : Simulator) : Simulator :=
  let h := sim.history ++ [sim.state.serialize]
  { sim with history := if 1000 < h.length then h.drop 1 else h }

def Simulator.canStepBack (sim : Simulator) : Bool := 1 < sim.history.length

def Simulator.stepForward (sim : Simulator) (autoGrant : Bool) : Simulator :=
  Simulator.snapshot { sim with state := sim.state.stepForward autoGrant }

def Simulator.stepBackward (sim : Simulator) : Simulator :=
  if 1 < sim.history.length then
    let h := sim.history.dropLast
    match h.getLast? with
    | some prev => { sim with history := h, state := RAGState.fromData prev }
    | none => { sim with history := h }
  else sim

def Simulator.resetToInitial (sim : Simulator) : Simulator :=
  match sim.history.head? with
  | some first => { sim with state := RAGState.fromData first, history := [first] }
  | none => sim

def Simulator.hardReset (sim : Simulator) : Simulator :=
  { sim with state := RAGState.init, history := [RAGState.init.serialize] }

/-- The app layer's `commitState`: external code mutates `sim.state` and
snapshots the result. -/
def Simulator.commit (sim : Simulator) (s' : RAGState) : Simulator :=
  Simulator.snapshot { sim with state := s' }

/-- The app layer's `setBaseline`: `sim.history = [sim.state.serialize()]`. -/
def Simulator.baseline (sim : Simulator) : Simulator :=
  { sim with history := [sim.state.serialize] }

def Simulator.exportTrace (sim : Simulator) : List Snapshot :=
  sim.history.map deepClone

/- ---------------- Documented trace layout (older core variant) ------- -/

/-- The per-step trace record documented by the spec: the layout built by
the older core variant's `Simulator.exportTrace`
(`{step, processes, resources, available, assigned, queues, logs}`). -/
structure TraceRecord where
  step : Nat
  processes : List Process
  resources : List Resource
  available : List (String × Int)
  assigned : AssignTable
  queues : WaitTable
  logs : List String
deriving DecidableEq, Repr

/-- Per-resource availability of a stored snapshot. -/
def snapAvailable (snap : Snapshot) : List (String × Int) :=
  snap.resources.map (fun r =>
    (r.name, (r.total : Int) - (sumVals ((getA snap.assignments r.name).getD []) : Int)))

/-- Per-resource queues of a stored snapshot. -/
def snapQueues (snap : Snapshot) : WaitTable :=
  snap.resources.map (fun r => (r.name, (getA snap.waitingRequests r.name).getD []))

/-- Translated from the older core variant's `Simulator.exportTrace`
record builder (the layout the spec documents): step, processes,
resources, computed available map, assignment map, queues, and the
trailing six log lines (`logs.slice(-6)`). -/
def exportTraceDoc (history : List Snapshot) : List TraceRecord :=
  history.map (fun snap =>
    { step := snap.step
      processes := snap.processes.map (fun p => ⟨p.name, p.state⟩)
      resources := snap.resources.map (fun r => ⟨r.name, r.total⟩)
      available := snapAvailable snap
      assigned := snap.assignments
      queues := snapQueues snap
      logs := snap.logs.drop (snap.logs.length - 6) })

/- ---------------- Reachability ---------------- -/

/-- The states reachable from the empty state through the public
operations (including `setAvoidance` and the event-queue operations,
which only makes the reachable set larger). -/
inductive Reachable : RAGState → Prop
  | init : Reachable RAGState.init
  | addProcess {s} (name) : Reachable s → Reachable (s.addProcess name).1
  | addResource {s} (name inst) : Reachable s → Reachable (s.addResource name inst).1
  | request {s} (pn rn c enq) : Reachable s → Reachable (s.request pn rn c enq).1
  | release {s} (pn rn c) : Reachable s → Reachable (s.release pn rn c).1
  | tryGrantWaiting {s} (rn) : Reachable s → Reachable (s.tryGrantWaiting rn).1
  | stepForward {s} (ag) : Reachable s → Reachable (s.stepForward ag)
  | setAvoidance {s} (b) : Reachable s → Reachable { s with avoidance := b }
  | enqueueEvent {s} (e) : Reachable s → Reachable (s.enqueueEvent e)
  | clearEvents {s} : Reachable s → Reachable s.clearEvents

/-- Simulators constructible through the `Simulator` interface as the app
layer uses it: the simulator's own methods, plus arbitrary external
mutation of `sim.state` followed by `snapshot` (the app's `commitState`
pattern), a pure log append, and `setBaseline`. -/
inductive SimReachable : Simulator → Prop
  | init : SimReachable Simulator.new
  | setAvoidance {sim} (b) : SimReachable sim → SimReachable (sim.setAvoidance b)
  | setSpeed {sim} (v) : SimReachable sim → SimReachable (sim.setSpeed v)
  | stepForward {sim} (ag) : SimReachable sim → SimReachable (sim.stepForward ag)
  | stepBackward {sim} : SimReachable sim → SimReachable sim.stepBackward
  | resetToInitial {sim} : SimReachable sim → SimReachable sim.resetToInitial
  | hardReset {sim} : SimReachable sim → SimReachable sim.hardReset
  | commit {sim} (s') : SimReachable sim → SimReachable (sim.commit s')
  | baseline {sim} : SimReachable sim → SimReachable sim.baseline
  | logNote {sim} (m) : SimReachable sim →
      SimReachable { sim with state := sim.state.pushLog m }

/- ---------------- Observations ---------------- -/

/-- The observable part of a live state for the round-trip property:
assignments, wait queues, step counter and process states. -/
def stateObs (s : RAGState) : AssignTable × WaitTable × Nat × List Process :=
  (s.assignments, s.waitingRequests, s.step, s.processes)

/-- The same observation read off a stored snapshot. -/
def snapObs (d : Snapshot) : AssignTable × WaitTable × Nat × List Process :=
  (d.assignments, d.waitingRequests, d.step, d.processes)

/- ---------------- Concrete scenario states ---------------- -/

/-- Two processes, two single-instance resources, avoidance on, cross
holdings, P1's request for R2 queued (the spec's avoidance-exactness
setup). -/
def sAB : RAGState :=
  let s := RAGState.init
  let s := { s with avoidance := true }
  let s := (s.addProcess "P1").1
  let s := (s.addProcess "P2").1
  let s := (s.addResource "R1" (some 1)).1
  let s := (s.addResource "R2" (some 1)).1
  let s := (s.request "P1" "R1" (some 1) true).1
  let s := (s.request "P2" "R2" (some 1) true).1
  (s.request "P1" "R2" (some 1) true).1

/-- A state whose pending action produces BOTH a definite cycle (P1,P2
over single-instance R1,R2) and a potential cycle (P3,P4 over the
two-instance R3): P3 holds one unit of R3, P4 waits for two units of R3
and holds R4. -/
def sMix : RAGState :=
  let s := RAGState.init
  let s := (s.addProcess "P1").1
  let s := (s.addProcess "P2").1
  let s := (s.addProcess "P3").1
  let s := (s.addProcess "P4").1
  let s := (s.addResource "R1" (some 1)).1
  let s := (s.addResource "R2" (some 1)).1
  let s := (s.addResource "R3" (some 2)).1
  let s := (s.addResource "R4" (some 1)).1
  let s := (s.request "P1" "R1" (some 1) true).1
  let s := (s.request "P2" "R2" (some 1) true).1
  let s := (s.request "P3" "R3" (some 1) true).1
  let s := (s.request "P4" "R4" (some 1) true).1
  let s := (s.request "P1" "R2" (some 1) true).1
  let s := (s.request "P2" "R1" (some 1) true).1
  let s := (s.request "P4" "R3" (some 2) true).1
  { s with avoidance := true }

/-- The speculative post-action state for P3's request of R4 on `sMix`
(exactly the clone the avoidance engine inspects). -/
def sMixSpec : RAGState :=
  RAGState.applyWaitHyp (RAGState.fromData sMix.serialize) "P3" "R4" 1

/-- P2 holds R1 and R2; P1 is queued on both R1 and R2; then P2 releases
R1, which grants P1's R1 entry from the queue and marks P1 ready while
P1's R2 entry is still queued. -/
def sC6 : RAGState :=
  let s := RAGState.init
  let s := (s.addProcess "P1").1
  let s := (s.addProcess "P2").1
  let s := (s.addResource "R1" (some 1)).1
  let s := (s.addResource "R2" (some 1)).1
  let s := (s.request "P2" "R1" (some 1) true).1
  let s := (s.request "P2" "R2" (some 1) true).1
  let s := (s.request "P1" "R1" (some 1) true).1
  let s := (s.request "P1" "R2" (some 1) true).1
  (s.release "P2" "R1" (some 1)).1

/-- A state carrying seven log lines (to separate full logs from the
documented trailing-six trace field). -/
def sLogs7 : RAGState :=
  { RAGState.init with logs := ["l1", "l2", "l3", "l4", "l5", "l6", "l7"] }

/-- A reachable simulator whose newest snapshot has seven log lines. -/
def simC9 : Simulator := Simulator.new.commit sLogs7

/- ---------------- Invariants ---------------- -/

/-- The ledger well-formedness the reachable states maintain: resource
names are unique; for every resource the held counts sum to at most its
total and no zero-count entry exists; names that are not resources have
an empty assignment map and an empty wait queue; every wait-queue entry
requests at least one unit. -/
def LedgerInv (s : RAGState) : Prop :=
  (s.resources.map (fun r => r.name)).Nodup ∧
  (∀ r ∈ s.resources, sumVals ((getA s.assignments r.name).getD []) ≤ r.total ∧
    ∀ e ∈ (getA s.assignments r.name).getD [], e.2 ≠ 0) ∧
  (∀ k, s.getResource k = none → (getA s.assignments k).getD [] = []) ∧
  (∀ k, s.getResource k = none → (getA s.waitingRequests k).getD [] = []) ∧
  (∀ k, ∀ e ∈ (getA s.waitingRequests k).getD [], 1 ≤ e.count)

/-- The history discipline the `Simulator` interface maintains: the
history is nonempty and its newest snapshot agrees with the live state on
the observable fields. -/
def SimInv (sim : Simulator) : Prop :=
  ∃ h x, sim.history = h ++ [x] ∧ snapObs x = stateObs sim.state

/- ==================== Association-list lemmas ==================== -/

theorem getA_setA_self {β : Type} (l : List (String × β)) (k : String) (v : β) :
    getA (setA l k v) k = some v := by
  induction l with
  | nil => simp [setA, getA]
  | cons e t ih =>
    obtain ⟨k', v'⟩ := e
    by_cases h : k' = k
    · simp [setA, getA, h]
    · simp [setA, getA, h, ih]

theorem getA_setA_ne {β : Type} (l : List (String × β)) (k j : String) (v : β)
    (h : j ≠ k) : getA (setA l k v) j = getA l j := by
  induction l with
  | nil => simp [setA, getA, Ne.symm h]
  | cons e t ih =>
    obtain ⟨k', v'⟩ := e
    by_cases hk : k' = k
    · subst hk
      simp [setA, getA, Ne.symm h]
    · by_cases hj : k' = j
      · simp [setA, getA, hk, hj, h]
      · simp [setA, getA, hk, hj, ih]

theorem mem_setA {β : Type} {l : List (String × β)} {k : String} {v : β}
    {a : String × β} : a ∈ setA l k v → a = (k, v) ∨ a ∈ l := by
  induction l with
  | nil =>
    intro h
    simp only [setA, List.mem_singleton] at h
    exact Or.inl h
  | cons e t ih =>
    intro h
    obtain ⟨k', v'⟩ := e
    by_cases hk : k' = k
    · simp only [setA, if_pos hk, List.mem_cons] at h
      rcases h with h | h
      · exact Or.inl h
      · exact Or.inr (List.mem_cons_of_mem _ h)
    · simp only [setA, if_neg hk, List.mem_cons] at h
      rcases h with h | h
      · exact Or.inr (by simp [h])
      · rcases ih h with h | h
        · exact Or.inl h
        · exact Or.inr (List.mem_cons_of_mem _ h)

theorem mem_delA {β : Type} {l : List (String × β)} {k : String}
    {a : String × β} : a ∈ delA l k → a ∈ l := by
  induction l with
  | nil =>
    intro h
    simp only [delA, List.not_mem_nil] at h
  | cons e t ih =>
    intro h
    obtain ⟨k', v'⟩ := e
    by_cases hk : k' = k
    · simp only [delA, if_pos hk] at h
      exact List.mem_cons_of_mem _ h
    · simp only [delA, if_neg hk, List.mem_cons] at h
      rcases h with h | h
      · simp [h]
      · exact List.mem_cons_of_mem _ (ih h)

theorem sumVals_setA (m : AssignMap) (k : String) (v : Nat) :
    sumVals (setA m k v) + (getA m k).getD 0 = sumVals m + v := by
  induction m with
  | nil => simp [setA, getA, sumVals]
  | cons e t ih =>
    obtain ⟨k', v'⟩ := e
    by_cases h : k' = k
    · subst h
      simp [setA, getA, sumVals]
      omega
    · simp [setA, getA, sumVals, h] at ih ⊢
      omega

theorem sumVals_delA (m : AssignMap) (k : String) :
    sumVals (delA m k) + (getA m k).getD 0 = sumVals m := by
  induction m with
  | nil => simp [delA, getA, sumVals]
  | cons e t ih =>
    obtain ⟨k', v'⟩ := e
    by_cases h : k' = k
    · subst h
      simp [delA, getA, sumVals]
      omega
    · simp [delA, getA, sumVals, h] at ih ⊢
      omega

theorem getA_getD_le_sumVals (m : AssignMap) (k : String) :
    (getA m k).getD 0 ≤ sumVals m := by
  induction m with
  | nil => simp [getA, sumVals]
  | cons e t ih =>
    obtain ⟨k', v'⟩ := e
    by_cases h : k' = k
    · simp [getA, sumVals, h]
    · simp [getA, sumVals, h] at ih ⊢
      omega

theorem delA_setA (m : AssignMap) (k : String) (v : Nat) :
    delA (setA m k v) k = delA m k := by
  induction m with
  | nil => simp [setA, delA]
  | cons e t ih =>
    obtain ⟨k', v'⟩ := e
    by_cases h : k' = k
    · simp [setA, delA, h]
    · simp [setA, delA, h, ih]

theorem getA_eq_none_iff {β : Type} (l : List (String × β)) (k : String) :
    getA l k = none ↔ k ∉ l.map (·.1) := by
  induction l with
  | nil => simp [getA]
  | cons e t ih =>
    obtain ⟨k', v'⟩ := e
    by_cases h : k' = k
    · simp [getA, h]
    · simp [getA, h, ih, Ne.symm h]

/- ==================== Serialization round trip ==================== -/

theorem map_process_eta (l : List Process) :
    l.map (fun p => (⟨p.name, p.state⟩ : Process)) = l := by
  induction l with
  | nil => rfl
  | cons a t ih => simp [ih]

theorem map_resource_clamp (l : List Resource) (h : ∀ r ∈ l, 1 ≤ r.total) :
    l.map (fun r =>
      (⟨r.name, max 1 (if r.total = 0 then 1 else r.total)⟩ : Resource)) = l := by
  induction l with
  | nil => rfl
  | cons a t ih =>
    have ha : 1 ≤ a.total := h a (by simp)
    have ht : ∀ r ∈ t, 1 ≤ r.total := fun r hr => h r (by simp [hr])
    have : max 1 (if a.total = 0 then 1 else a.total) = a.total := by
      rw [if_neg (by omega)]
      omega
    simp [ih ht, this]

theorem fromData_serialize (s : RAGState) (h : ∀ r ∈ s.resources, 1 ≤ r.total) :
    RAGState.fromData s.serialize = s := by
  cases s with
  | mk ps rs a w e st lg av =>
    simp only [RAGState.serialize, RAGState.fromData, deepClone, List.map_map]
    congr 1
    · exact map_process_eta ps
    · exact map_resource_clamp rs h

/- ==================== C8: speculative checks are isolated ========== -/

/-- C8: the speculative avoidance checks never touch the live state.  In
this value-semantics embedding both checks are functions that return only
a verdict, so the live state passed onward by their callers is the input
state itself; the content to certify is that the "deep copy" they inspect
is a faithful independent value: deserializing the serialized state
reproduces the state exactly, so each check's verdict equals the verdict
of the cycle test applied to the hypothetical update of the live state
itself. -/
theorem speculative_check_isolated (s : RAGState) (pn rn : String) (k : Nat)
    (htot : ∀ r ∈ s.resources, 1 ≤ r.total) :
    RAGState.fromData s.serialize = s ∧
    s.grantWouldCreateDefiniteCycle pn rn k =
      RAGState.stateHasDefiniteCycle (s.applyGrantHyp pn rn k) ∧
    s.addWaitWouldCreateDefiniteCycle pn rn k =
      RAGState.stateHasDefiniteCycle (s.applyWaitHyp pn rn k) := by
  have h := fromData_serialize s htot
  refine ⟨h, ?_, ?_⟩
  · rw [RAGState.grantWouldCreateDefiniteCycle, h]
  · rw [RAGState.addWaitWouldCreateDefiniteCycle, h]

theorem speculative_check_isolated_w :
    RAGState.fromData sAB.serialize = sAB ∧
    sAB.grantWouldCreateDefiniteCycle "P2" "R1" 1 =
      RAGState.stateHasDefiniteCycle (sAB.applyGrantHyp "P2" "R1" 1) :=
  ⟨(speculative_check_isolated sAB "P2" "R1" 1 (by decide)).1,
   (speculative_check_isolated sAB "P2" "R1" 1 (by decide)).2.1⟩

/- ==================== C2: avoidance exactness (single instance) ===== -/

/-- C2: in the two-process / two-single-instance-resource setup with
avoidance on and P1's request for R2 already queued, P2's request for R1
(with enqueue) is denied with the avoided-wait-cycle reason, and the wait
queues and assignments are unchanged by the call. -/
theorem avoidance_denies_second_request :
    (sAB.request "P2" "R1" (some 1) true).2 =
      ReqOutcome.fail "Avoided waiting cycle (definite)" ∧
    (sAB.request "P2" "R1" (some 1) true).1.waitingRequests = sAB.waitingRequests ∧
    (sAB.request "P2" "R1" (some 1) true).1.assignments = sAB.assignments := by
  decide

/- ==================== C1: definite-cycle policy ==================== -/

/-- C1 counterexample: a state whose speculative post-action graph
contains a definite cycle ([P1,P2] over single-instance resources) is
nevertheless allowed (queued), because a second, merely potential cycle
([P3,P4] over the two-instance R3) makes the check's `definite` flag
false — the code denies only when EVERY detected cycle is definite. -/
theorem definite_cycle_present_yet_allowed :
    ((sMixSpec.detectDeadlock).cycles.any
      (fun c => RAGState.cycleUsesOnlySingleInstanceResources c sMixSpec)) = true ∧
    (sMix.request "P3" "R4" (some 1) true).2 = ReqOutcome.queued := by
  decide

/- ==================== C6: queue entries vs blocked state ============ -/

/-- C6 counterexample: a state reachable through the public operations in
which process P1 still has a wait-queue entry on R2 while its stored
state is `ready` — releasing R1 granted P1's R1 entry and marked it
ready even though its R2 entry is still queued. -/
theorem ready_process_with_queue_entry :
    Reachable sC6 ∧
    sC6.getProcess "P1" = some ⟨"P1", PState.ready⟩ ∧
    ((getQ sC6 "R2").any (fun e => e.process = "P1")) = true := by
  refine ⟨?_, by decide, by decide⟩
  exact Reachable.release "P2" "R1" (some 1)
    (Reachable.request "P1" "R2" (some 1) true
      (Reachable.request "P1" "R1" (some 1) true
        (Reachable.request "P2" "R2" (some 1) true
          (Reachable.request "P2" "R1" (some 1) true
            (Reachable.addResource "R2" (some 1)
              (Reachable.addResource "R1" (some 1)
                (Reachable.addProcess "P2"
                  (Reachable.addProcess "P1" Reachable.init))))))))

/-- C6 amended: after `stepForward` completes (which recomputes every
process's state from the wait queues), every process with at least one
wait-queue entry anywhere has state `blocked`. -/
theorem mem_recompute (s : RAGState) (p : Process)
    (hp : p ∈ s.recomputeStates.processes) :
    p.state = (if s.procIsWaiting p.name = true then PState.blocked else PState.ready) := by
  unfold RAGState.recomputeStates at hp
  simp only [List.mem_map] at hp
  obtain ⟨q, hq, rfl⟩ := hp
  rfl

theorem stepForward_blocked_iff_waiting (s : RAGState) (ag : Bool) (p : Process)
    (hp : p ∈ (s.stepForward ag).processes)
    (hw : (s.stepForward ag).procIsWaiting p.name = true) :
    p.state = PState.blocked := by
  have h1 : s.stepForward ag = (s.stepForwardCore ag).recomputeStates := rfl
  rw [h1] at hp hw
  have hw' : (s.stepForwardCore ag).procIsWaiting p.name = true := hw
  have h2 := mem_recompute _ _ hp
  rw [hw'] at h2
  simpa using h2


theorem stepForward_blocked_iff_waiting_w :
    (⟨"P1", PState.blocked⟩ : Process) ∈ (sAB.stepForward true).processes ∧
    (⟨"P1", PState.blocked⟩ : Process).state = PState.blocked :=
  ⟨by decide,
   stepForward_blocked_iff_waiting sAB true ⟨"P1", PState.blocked⟩ (by decide) (by decide)⟩

/- ==================== C7: zero-held release ==================== -/

/-- C7 amended: for a valid process and resource with zero units held,
`release` returns `released 0` (never an error) and leaves everything
except the log (and the lazily materialized empty per-resource maps)
unchanged: the result state is exactly the input state with the no-op log
line appended. -/
theorem release_zero_held (s : RAGState) (pn rn : String) (c : Option Int)
    (p : Process) (r : Resource)
    (hp : s.getProcess pn = some p) (hr : s.getResource rn = some r)
    (hheld : (getA ((getA (s.ensureResourceMaps rn).assignments rn).getD []) pn).getD 0
      = 0) :
    s.release pn rn c =
      ((s.ensureResourceMaps rn).pushLog (noopReleaseLog pn rn),
       RelOutcome.released 0) := by
  unfold RAGState.release
  rw [hp, hr]
  simp [hheld]

theorem release_zero_held_w :
    sAB.release "P2" "R1" (some 3) =
      ((sAB.ensureResourceMaps "R1").pushLog (noopReleaseLog "P2" "R1"),
       RelOutcome.released 0) :=
  release_zero_held sAB "P2" "R1" (some 3) ⟨"P2", PState.ready⟩ ⟨"R1", 1⟩
    (by decide) (by decide) (by decide)

/-- C7 counterexample: the claim says the zero-held release "never changes
the state", but the call appends a no-op log line, so the state does
change (here: P2 validly holds 0 of R1). -/
theorem release_zero_held_changes_state :
    sAB.getProcess "P2" = some ⟨"P2", PState.ready⟩ ∧
    sAB.getResource "R1" = some ⟨"R1", 1⟩ ∧
    (getA ((getA sAB.assignments "R1").getD []) "P2").getD 0 = 0 ∧
    (sAB.release "P2" "R1" (some 1)).2 = RelOutcome.released 0 ∧
    (sAB.release "P2" "R1" (some 1)).1 ≠ sAB := by
  decide

/- ==================== C9: exportTrace layout ==================== -/

/-- C9 counterexample: the live core's `Simulator.exportTrace` returns the
raw serialized snapshots, whose `logs` field is the full log (here 7
lines), not the documented trailing-log-lines field (6 lines) of the
documented trace-record layout. -/
theorem exportTrace_not_documented_layout :
    ((Simulator.exportTrace simC9).map (fun t => t.logs)) ≠
      ((exportTraceDoc simC9.history).map (fun t => t.logs)) := by
  decide

/-- C9 amended: `exportTrace` returns the ordered snapshot sequence
unchanged — each record is a (deep-copied) full serialized snapshot
`{processes, resources, assignments, waitingRequests, eventQueue, step,
logs, avoidance}`, with no computed available map, no `assigned`/`queues`
renaming, and no log trimming. -/
theorem exportTrace_is_history (sim : Simulator) :
    Simulator.exportTrace sim = sim.history := by
  rw [Simulator.exportTrace,
    show (deepClone : Snapshot → Snapshot) = id from rfl, List.map_id]

/- ==================== C10: count clamping ==================== -/

theorem clampCount_pos (c : Option Int) : 1 ≤ clampCount c := by
  cases c with
  | none => simp [clampCount]
  | some v =>
    simp only [clampCount]
    split
    · simp
    · omega

theorem clampCount_idem (c : Option Int) :
    clampCount (some ((clampCount c : Nat) : Int)) = clampCount c := by
  have h := clampCount_pos c
  set n := clampCount c with hn
  show (max 1 (if (n : Int) = 0 then 1 else (n : Int))).toNat = n
  have hne : ¬((n : Int) = 0) := by
    exact_mod_cast Nat.one_le_iff_ne_zero.mp h
  rw [if_neg hne, max_eq_right (by exact_mod_cast h)]
  simp

/-- C10: both `request` and `release` use
`Math.max(1, Number(count) || 1)` as the effective count, so any count is
interchangeable with its clamped value; in particular a zero, negative or
non-numeric count behaves exactly as count 1. -/
theorem request_release_count_clamped (s : RAGState) (pn rn : String)
    (c : Option Int) (enq : Bool) :
    s.request pn rn c enq = s.request pn rn (some ((clampCount c : Nat) : Int)) enq ∧
    s.release pn rn c = s.release pn rn (some ((clampCount c : Nat) : Int)) ∧
    ((c = none ∨ ∃ v, c = some v ∧ v ≤ 0) → clampCount c = 1) ∧
    (∀ v : Int, 1 ≤ v → clampCount (some v) = v.toNat) := by
  refine ⟨?_, ?_, ?_, ?_⟩
  · cases hP : s.getProcess pn <;> cases hR : s.getResource rn <;>
      simp [RAGState.request, hP, hR, clampCount_idem]
  · cases hP : s.getProcess pn <;> cases hR : s.getResource rn <;>
      simp [RAGState.release, hP, hR, clampCount_idem]
  · rintro (rfl | ⟨v, rfl, hv⟩)
    · rfl
    · show (max 1 (if v = 0 then 1 else v)).toNat = 1
      split
      · rfl
      · rw [max_eq_left (by omega)]
        rfl
  · intro v hv
    show (max 1 (if v = 0 then 1 else v)).toNat = v.toNat
    rw [if_neg (by omega), max_eq_right hv]

theorem request_release_count_clamped_w :
    sAB.release "P1" "R1" (some 0) = sAB.release "P1" "R1" (some 1) ∧
    (sAB.release "P1" "R1" (some 0)).2 = RelOutcome.released 1 := by
  constructor
  · have h := (request_release_count_clamped sAB "P1" "R1" (some 0) true).2.1
    have h1 : ((clampCount (some 0) : Nat) : Int) = 1 := rfl
    rw [h, h1]
  · decide

/- ==================== C1: definite-vs-potential policy ============== -/

theorem requestCommitGrant_snd (s : RAGState) (pn rn : String) (k : Nat) :
    (requestCommitGrant s pn rn k).2 = ReqOutcome.granted := rfl

theorem requestCommitQueue_snd (s : RAGState) (pn rn : String) (k : Nat) :
    (requestCommitQueue s pn rn k).2 = ReqOutcome.queued := rfl

/-- C1 amended: with avoidance enabled and valid references, the request
is denied exactly when the speculative check reports a cycle AND every
detected cycle is definite (`definite = true`); a denial leaves the
assignments and wait queues unchanged, appending only the log line naming
the detected cycles; when a cycle is detected but some detected cycle is
not definite, the action proceeds (`granted` on the grant path, `queued`
on the enqueue path).  The original claim's "at least one definite cycle
implies denial" is corrected to "all detected cycles definite implies
denial". -/
theorem request_definite_cycle_policy (s : RAGState) (pn rn : String) (c : Option Int)
    (enq : Bool) (p : Process) (r : Resource)
    (hp : s.getProcess pn = some p) (hr : s.getResource rn = some r)
    (hav : s.avoidance = true) :
    (((s.request pn rn c enq).2 = ReqOutcome.fail "Avoided cycle (definite)") ↔
      (((clampCount c : Int) ≤ (s.ensureResourceMaps rn).availableOf rn) ∧
       ((s.ensureResourceMaps rn).grantWouldCreateDefiniteCycle pn rn (clampCount c)).hasCycle = true ∧
       ((s.ensureResourceMaps rn).grantWouldCreateDefiniteCycle pn rn (clampCount c)).definite = true)) ∧
    (((s.request pn rn c enq).2 = ReqOutcome.fail "Avoided waiting cycle (definite)") ↔
      (¬ ((clampCount c : Int) ≤ (s.ensureResourceMaps rn).availableOf rn) ∧ enq = true ∧
       ((s.ensureResourceMaps rn).addWaitWouldCreateDefiniteCycle pn rn (clampCount c)).hasCycle = true ∧
       ((s.ensureResourceMaps rn).addWaitWouldCreateDefiniteCycle pn rn (clampCount c)).definite = true)) ∧
    ((s.request pn rn c enq).2 = ReqOutcome.fail "Avoided cycle (definite)" →
      (s.request pn rn c enq).1 = (s.ensureResourceMaps rn).pushLog
        (avoidedGrantLog (clampCount c) rn pn
          (((s.ensureResourceMaps rn).grantWouldCreateDefiniteCycle pn rn (clampCount c)).deadInfo.cycles))) ∧
    ((s.request pn rn c enq).2 = ReqOutcome.fail "Avoided waiting cycle (definite)" →
      (s.request pn rn c enq).1 = (s.ensureResourceMaps rn).pushLog
        (avoidedWaitLog pn rn
          (((s.ensureResourceMaps rn).addWaitWouldCreateDefiniteCycle pn rn (clampCount c)).deadInfo.cycles))) ∧
    (((clampCount c : Int) ≤ (s.ensureResourceMaps rn).availableOf rn) →
      ((s.ensureResourceMaps rn).grantWouldCreateDefiniteCycle pn rn (clampCount c)).hasCycle = true →
      ((s.ensureResourceMaps rn).grantWouldCreateDefiniteCycle pn rn (clampCount c)).definite = false →
      (s.request pn rn c enq).2 = ReqOutcome.granted) ∧
    (¬ ((clampCount c : Int) ≤ (s.ensureResourceMaps rn).availableOf rn) → enq = true →
      ((s.ensureResourceMaps rn).addWaitWouldCreateDefiniteCycle pn rn (clampCount c)).hasCycle = true →
      ((s.ensureResourceMaps rn).addWaitWouldCreateDefiniteCycle pn rn (clampCount c)).definite = false →
      (s.request pn rn c enq).2 = ReqOutcome.queued) := by
  have hav1 : (s.ensureResourceMaps rn).avoidance = true := hav
  by_cases hcg : (clampCount c : Int) ≤ (s.ensureResourceMaps rn).availableOf rn
  · by_cases hB :
      (((s.ensureResourceMaps rn).grantWouldCreateDefiniteCycle pn rn (clampCount c)).hasCycle &&
       ((s.ensureResourceMaps rn).grantWouldCreateDefiniteCycle pn rn (clampCount c)).definite) = true
    · have hreq : s.request pn rn c enq =
        ((s.ensureResourceMaps rn).pushLog
          (avoidedGrantLog (clampCount c) rn pn
            (((s.ensureResourceMaps rn).grantWouldCreateDefiniteCycle pn rn (clampCount c)).deadInfo.cycles)),
         ReqOutcome.fail "Avoided cycle (definite)") := by
        unfold RAGState.request
        simp only [hp, hr]
        rw [if_pos hcg, if_pos hav1, if_pos hB]
      have hB' := hB
      rw [Bool.and_eq_true] at hB'
      obtain ⟨h1, h2⟩ := hB'
      refine ⟨?_, ?_, ?_, ?_, ?_, ?_⟩
      · simp [hreq, hcg, h1, h2]
      · rw [hreq]
        exact iff_of_false (by simp) (by rintro ⟨hn, -⟩; exact hn hcg)
      · intro _
        rw [hreq]
      · intro hx
        rw [hreq] at hx
        simp at hx
      · intro _ _ hd
        rw [h2] at hd
        cases hd
      · intro hn
        exact absurd hcg hn
    · have hreq : (s.request pn rn c enq).2 = ReqOutcome.granted := by
        unfold RAGState.request
        simp only [hp, hr]
        rw [if_pos hcg, if_pos hav1, if_neg (by simp [hB])]
        exact requestCommitGrant_snd _ _ _ _
      refine ⟨?_, ?_, ?_, ?_, ?_, ?_⟩
      · rw [hreq]
        refine iff_of_false (by simp) ?_
        rintro ⟨-, h1, h2⟩
        rw [h1, h2] at hB
        simp at hB
      · rw [hreq]
        exact iff_of_false (by simp) (by rintro ⟨hn, -⟩; exact hn hcg)
      · intro hx
        rw [hreq] at hx
        simp at hx
      · intro hx
        rw [hreq] at hx
        simp at hx
      · intro _ _ _
        exact hreq
      · intro hn
        exact absurd hcg hn
  · by_cases henq : enq = true
    · by_cases hB :
        (((s.ensureResourceMaps rn).addWaitWouldCreateDefiniteCycle pn rn (clampCount c)).hasCycle &&
         ((s.ensureResourceMaps rn).addWaitWouldCreateDefiniteCycle pn rn (clampCount c)).definite) = true
      · have hreq : s.request pn rn c enq =
          ((s.ensureResourceMaps rn).pushLog
            (avoidedWaitLog pn rn
              (((s.ensureResourceMaps rn).addWaitWouldCreateDefiniteCycle pn rn (clampCount c)).deadInfo.cycles)),
           ReqOutcome.fail "Avoided waiting cycle (definite)") := by
          unfold RAGState.request
          simp only [hp, hr]
          rw [if_neg hcg, if_pos henq, if_pos hav1, if_pos hB]
        have hB' := hB
        rw [Bool.and_eq_true] at hB'
        obtain ⟨h1, h2⟩ := hB'
        refine ⟨?_, ?_, ?_, ?_, ?_, ?_⟩
        · rw [hreq]
          exact iff_of_false (by simp) (by rintro ⟨hx, -⟩; exact hcg hx)
        · rw [hreq]
          simp [hcg, henq, h1, h2]
        · intro hx
          rw [hreq] at hx
          simp at hx
        · intro _
          rw [hreq]
        · intro hx
          exact absurd hx hcg
        · intro _ _ _ hd
          rw [h2] at hd
          cases hd
      · have hreq : (s.request pn rn c enq).2 = ReqOutcome.queued := by
          unfold RAGState.request
          simp only [hp, hr]
          rw [if_neg hcg, if_pos henq, if_pos hav1, if_neg (by simp [hB])]
          exact requestCommitQueue_snd _ _ _ _
        refine ⟨?_, ?_, ?_, ?_, ?_, ?_⟩
        · rw [hreq]
          exact iff_of_false (by simp) (by rintro ⟨hx, -⟩; exact hcg hx)
        · rw [hreq]
          refine iff_of_false (by simp) ?_
          rintro ⟨-, -, h1, h2⟩
          rw [h1, h2] at hB
          simp at hB
        · intro hx
          rw [hreq] at hx
          simp at hx
        · intro hx
          rw [hreq] at hx
          simp at hx
        · intro hx
          exact absurd hx hcg
        · intro _ _ _ _
          exact hreq
    · have hreq : s.request pn rn c enq =
          (s.ensureResourceMaps rn,
           ReqOutcome.fail "Insufficient resources and not enqueued") := by
        unfold RAGState.request
        simp only [hp, hr]
        rw [if_neg hcg, if_neg henq]
      refine ⟨?_, ?_, ?_, ?_, ?_, ?_⟩
      · rw [hreq]
        exact iff_of_false (by simp) (by rintro ⟨hx, -⟩; exact hcg hx)
      · rw [hreq]
        exact iff_of_false (by simp) (by rintro ⟨-, hx, -⟩; exact henq hx)
      · intro hx
        rw [hreq] at hx
        simp at hx
      · intro hx
        rw [hreq] at hx
        simp at hx
      · intro hx
        exact absurd hx hcg
      · intro _ hx
        exact absurd hx henq

theorem request_definite_cycle_policy_w :
    ((sAB.request "P2" "R1" (some 1) true).2 =
        ReqOutcome.fail "Avoided waiting cycle (definite)" ↔
      (¬ ((clampCount (some 1) : Int) ≤ (sAB.ensureResourceMaps "R1").availableOf "R1") ∧
       true = true ∧
       ((sAB.ensureResourceMaps "R1").addWaitWouldCreateDefiniteCycle "P2" "R1"
         (clampCount (some 1))).hasCycle = true ∧
       ((sAB.ensureResourceMaps "R1").addWaitWouldCreateDefiniteCycle "P2" "R1"
         (clampCount (some 1))).definite = true)) :=
  (request_definite_cycle_policy sAB "P2" "R1" (some 1) true ⟨"P2", PState.ready⟩
    ⟨"R1", 1⟩ (by decide) (by decide) (by decide)).2.1

/- ==================== C5: tryGrantWaiting scan ==================== -/

theorem ite_pushLog_assignments {c : Prop} [Decidable c] (s : RAGState) (m : String) :
    (if c then s.pushLog m else s).assignments = s.assignments := by
  split <;> rfl

theorem ite_pushLog_availableOf {c : Prop} [Decidable c] (s : RAGState) (m : String)
    (rn : String) : (if c then s.pushLog m else s).availableOf rn = s.availableOf rn := by
  split <;> rfl

theorem ite_pushLog_avoidance {c : Prop} [Decidable c] (s : RAGState) (m : String) :
    (if c then s.pushLog m else s).avoidance = s.avoidance := by
  split <;> rfl

theorem sumVals_setA_bump (m : AssignMap) (k : String) (c : Nat) :
    sumVals (setA m k ((getA m k).getD 0 + c)) = sumVals m + c := by
  have h := sumVals_setA m k ((getA m k).getD 0 + c)
  omega

theorem grantFromQueue_queue (s : RAGState) (rn : String) (req : WaitEntry)
    (kept rest : List WaitEntry) :
    getQ (grantFromQueue s rn req kept rest) rn = kept ++ rest := by
  show ((getA (setA s.waitingRequests rn (kept ++ rest)) rn).getD []) = kept ++ rest
  rw [getA_setA_self]
  rfl

theorem grantFromQueue_sumHeld (s : RAGState) (rn : String) (req : WaitEntry)
    (kept rest : List WaitEntry) :
    sumVals ((getA (grantFromQueue s rn req kept rest).assignments rn).getD []) =
      sumVals ((getA s.assignments rn).getD []) + req.count := by
  show sumVals ((getA (setA s.assignments rn
    (setA ((getA s.assignments rn).getD []) req.process
      (((getA ((getA s.assignments rn).getD []) req.process).getD 0) + req.count))) rn).getD [])
    = _
  rw [getA_setA_self]
  exact sumVals_setA_bump _ _ _

theorem availableOf_grantFromQueue_le (s : RAGState) (rn : String) (req : WaitEntry)
    (kept rest : List WaitEntry) :
    (grantFromQueue s rn req kept rest).availableOf rn ≤ s.availableOf rn := by
  have hres : (grantFromQueue s rn req kept rest).getResource rn = s.getResource rn := rfl
  have hs := grantFromQueue_sumHeld s rn req kept rest
  unfold RAGState.availableOf
  rw [hres]
  cases h : s.getResource rn with
  | none => simp
  | some r =>
    simp only [hs]
    push_cast
    omega

theorem grantFromQueue_avoidance (s : RAGState) (rn : String) (req : WaitEntry)
    (kept rest : List WaitEntry) :
    (grantFromQueue s rn req kept rest).avoidance = s.avoidance := rfl

/-- The full characterization of one run of the `tryGrantWaiting` loop
from the tail `rest`, with already-scanned prefix `kept`.  `tk` is the
part of `rest` left in the queue. -/
theorem tgwAux_spec (resName : String) (rest : List WaitEntry) :
    ∀ (kept : List WaitEntry) (s : RAGState) (changed : Bool),
      getQ s resName = kept ++ rest →
      ∃ tk : List WaitEntry,
        getQ (tryGrantWaitingAux resName rest kept s changed).1 resName = kept ++ tk ∧
        List.Sublist tk rest ∧
        ((tryGrantWaitingAux resName rest kept s changed).2 = true ↔
          (changed = true ∨ tk.length < rest.length)) ∧
        (sumVals ((getA (tryGrantWaitingAux resName rest kept s changed).1.assignments
              resName).getD []) + (tk.map (fun e => e.count)).sum =
          sumVals ((getA s.assignments resName).getD []) +
            (rest.map (fun e => e.count)).sum) ∧
        (tryGrantWaitingAux resName rest kept s changed).1.availableOf resName ≤
          s.availableOf resName ∧
        (tryGrantWaitingAux resName rest kept s changed).1.avoidance = s.avoidance ∧
        (s.avoidance = false →
          ∀ e ∈ tk, (tryGrantWaitingAux resName rest kept s changed).1.availableOf resName <
            (e.count : Int)) := by
  induction rest with
  | nil =>
    intro kept s changed hq
    refine ⟨[], ?_, List.nil_sublist _, ?_, ?_, ?_, ?_, ?_⟩
    · simpa [tryGrantWaitingAux] using hq
    · simp [tryGrantWaitingAux]
    · simp [tryGrantWaitingAux]
    · simp [tryGrantWaitingAux]
    · simp [tryGrantWaitingAux]
    · intro _ e he
      simp at he
  | cons req rest ih =>
    intro kept s changed hq
    by_cases hsat : (req.count : Int) ≤ s.availableOf resName
    · by_cases hav : s.avoidance = true
      · by_cases hden :
          ((s.grantWouldCreateDefiniteCycle req.process resName req.count).hasCycle &&
           (s.grantWouldCreateDefiniteCycle req.process resName req.count).definite) = true
        · -- satisfiable but vetoed by avoidance: left in place, scan continues
          have haux : tryGrantWaitingAux resName (req :: rest) kept s changed =
              tryGrantWaitingAux resName rest (kept ++ [req]) s changed := by
            simp only [tryGrantWaitingAux]
            rw [if_pos hsat, if_pos hav, if_pos hden]
          have hq' : getQ s resName = (kept ++ [req]) ++ rest := by
            rw [hq, List.append_cons]
          obtain ⟨tk, h1, h2, h3, h4, h5, h6, h7⟩ := ih (kept ++ [req]) s changed hq'
          refine ⟨req :: tk, ?_, List.Sublist.cons₂ _ h2, ?_, ?_, ?_, ?_, ?_⟩
          · rw [haux, h1]
            simp
          · rw [haux, h3]
            simp only [List.length_cons]
            exact or_congr Iff.rfl (by omega)
          · rw [haux]
            simp only [List.map_cons, List.sum_cons]
            omega
          · rw [haux]
            exact h5
          · rw [haux]
            exact h6
          · intro hf
            rw [hf] at hav
            cases hav
        · -- satisfiable, allowed (possibly with a potential-cycle warning)
          have haux : tryGrantWaitingAux resName (req :: rest) kept s changed =
              tryGrantWaitingAux resName rest kept
                (grantFromQueue
                  (if ((s.grantWouldCreateDefiniteCycle req.process resName req.count).hasCycle &&
                      !(s.grantWouldCreateDefiniteCycle req.process resName req.count).definite) = true
                   then s.pushLog (queueAllowedLog req.process resName) else s)
                  resName req kept rest) true := by
            simp only [tryGrantWaitingAux]
            rw [if_pos hsat, if_pos hav, if_neg hden]
          set s1 := (if ((s.grantWouldCreateDefiniteCycle req.process resName req.count).hasCycle &&
              !(s.grantWouldCreateDefiniteCycle req.process resName req.count).definite) = true
             then s.pushLog (queueAllowedLog req.process resName) else s) with hs1
          set s2 := grantFromQueue s1 resName req kept rest with hs2
          have hq2 : getQ s2 resName = kept ++ rest := grantFromQueue_queue _ _ _ _ _
          obtain ⟨tk, h1, h2, h3, h4, h5, h6, h7⟩ := ih kept s2 true hq2
          have hsum2 : sumVals ((getA s2.assignments resName).getD []) =
              sumVals ((getA s.assignments resName).getD []) + req.count := by
            rw [hs2, grantFromQueue_sumHeld]
            rw [hs1, ite_pushLog_assignments]
          have havail2 : s2.availableOf resName ≤ s.availableOf resName := by
            rw [hs2]
            calc (grantFromQueue s1 resName req kept rest).availableOf resName
                ≤ s1.availableOf resName := availableOf_grantFromQueue_le _ _ _ _ _
              _ = s.availableOf resName := by rw [hs1, ite_pushLog_availableOf]
          refine ⟨tk, ?_, List.Sublist.cons _ h2, ?_, ?_, ?_, ?_, ?_⟩
          · rw [haux, h1]
          · rw [haux, h3]
            refine iff_of_true (Or.inl rfl) (Or.inr ?_)
            simp only [List.length_cons]
            exact Nat.lt_succ_of_le h2.length_le
          · rw [haux]
            have h4' := h4
            rw [hsum2] at h4'
            simp only [List.map_cons, List.sum_cons]
            omega
          · rw [haux]
            exact le_trans h5 havail2
          · rw [haux, h6, hs2, grantFromQueue_avoidance, hs1, ite_pushLog_avoidance]
          · intro hf
            rw [hf] at hav
            cases hav
      · -- satisfiable, avoidance disabled: granted outright
        have haux : tryGrantWaitingAux resName (req :: rest) kept s changed =
            tryGrantWaitingAux resName rest kept
              (grantFromQueue s resName req kept rest) true := by
          simp only [tryGrantWaitingAux]
          rw [if_pos hsat, if_neg hav]
        set s2 := grantFromQueue s resName req kept rest with hs2
        have hq2 : getQ s2 resName = kept ++ rest := grantFromQueue_queue _ _ _ _ _
        obtain ⟨tk, h1, h2, h3, h4, h5, h6, h7⟩ := ih kept s2 true hq2
        have hsum2 : sumVals ((getA s2.assignments resName).getD []) =
            sumVals ((getA s.assignments resName).getD []) + req.count := by
          rw [hs2, grantFromQueue_sumHeld]
        have havail2 : s2.availableOf resName ≤ s.availableOf resName := by
          rw [hs2]
          exact availableOf_grantFromQueue_le _ _ _ _ _
        have hav2 : s2.avoidance = s.avoidance := by
          rw [hs2, grantFromQueue_avoidance]
        refine ⟨tk, ?_, List.Sublist.cons _ h2, ?_, ?_, ?_, ?_, ?_⟩
        · rw [haux, h1]
        · rw [haux, h3]
          refine iff_of_true (Or.inl rfl) (Or.inr ?_)
          simp only [List.length_cons]
          exact Nat.lt_succ_of_le h2.length_le
        · rw [haux]
          have h4' := h4
          rw [hsum2] at h4'
          simp only [List.map_cons, List.sum_cons]
          omega
        · rw [haux]
          exact le_trans h5 havail2
        · rw [haux, h6, hav2]
        · intro hf e he
          rw [haux]
          exact h7 (by rw [hav2, hf]) e he
    · -- unsatisfiable at the moment examined: skipped, scan continues
      have haux : tryGrantWaitingAux resName (req :: rest) kept s changed =
          tryGrantWaitingAux resName rest (kept ++ [req]) s changed := by
        simp only [tryGrantWaitingAux]
        rw [if_neg hsat]
      have hq' : getQ s resName = (kept ++ [req]) ++ rest := by
        rw [hq, List.append_cons]
      obtain ⟨tk, h1, h2, h3, h4, h5, h6, h7⟩ := ih (kept ++ [req]) s changed hq'
      refine ⟨req :: tk, ?_, List.Sublist.cons₂ _ h2, ?_, ?_, ?_, ?_, ?_⟩
      · rw [haux, h1]
        simp
      · rw [haux, h3]
        simp only [List.length_cons]
        exact or_congr Iff.rfl (by omega)
      · rw [haux]
        simp only [List.map_cons, List.sum_cons]
        omega
      · rw [haux]
        exact h5
      · rw [haux]
        exact h6
      · intro hf e he
        rw [haux]
        rcases List.mem_cons.mp he with he1 | he'
        · subst he1
          exact lt_of_le_of_lt h5 (lt_of_not_le hsat)
        · exact h7 hf e he'

/-- C5: `tryGrantWaiting` scans the entire queue in FIFO order: the final
queue is a sublist of the initial one (entries stay in place, in order);
the call returns true exactly when the queue strictly shrank (at least
one grant); the held total for the resource grows by exactly the counts
of the removed (granted) entries; and with avoidance off every entry left
in the queue was unsatisfiable at the moment it was examined (its count
exceeds the final availability, which only shrinks during the scan). -/
theorem tryGrantWaiting_scan (s : RAGState) (resName : String) :
    List.Sublist (getQ (s.tryGrantWaiting resName).1 resName)
      (getQ (s.ensureResourceMaps resName) resName) ∧
    ((s.tryGrantWaiting resName).2 = true ↔
      (getQ (s.tryGrantWaiting resName).1 resName).length <
        (getQ (s.ensureResourceMaps resName) resName).length) ∧
    (sumVals ((getA (s.tryGrantWaiting resName).1.assignments resName).getD []) +
        ((getQ (s.tryGrantWaiting resName).1 resName).map (fun e => e.count)).sum =
      sumVals ((getA (s.ensureResourceMaps resName).assignments resName).getD []) +
        ((getQ (s.ensureResourceMaps resName) resName).map (fun e => e.count)).sum) ∧
    (s.avoidance = false →
      ∀ e ∈ getQ (s.tryGrantWaiting resName).1 resName,
        (s.tryGrantWaiting resName).1.availableOf resName < (e.count : Int)) := by
  have hrfl : s.tryGrantWaiting resName =
      tryGrantWaitingAux resName (getQ (s.ensureResourceMaps resName) resName) []
        (s.ensureResourceMaps resName) false := rfl
  obtain ⟨tk, h1, h2, h3, h4, h5, h6, h7⟩ :=
    tgwAux_spec resName (getQ (s.ensureResourceMaps resName) resName) []
      (s.ensureResourceMaps resName) false (List.nil_append _).symm
  rw [List.nil_append] at h1
  rw [hrfl, h1]
  refine ⟨h2, ?_, h4, ?_⟩
  · rw [h3]
    simp
  · intro hf e he
    exact h7 hf e he

theorem tryGrantWaiting_scan_w :
    (sAB.tryGrantWaiting "R2").2 = false ∧
    List.Sublist (getQ (sAB.tryGrantWaiting "R2").1 "R2")
      (getQ (sAB.ensureResourceMaps "R2") "R2") :=
  ⟨by decide, (tryGrantWaiting_scan sAB "R2").1⟩

/- ==================== C3: ledger invariant ==================== -/

theorem getResource_mem {s : RAGState} {k : String} {r : Resource}
    (h : s.getResource k = some r) : r ∈ s.resources ∧ r.name = k := by
  refine ⟨List.mem_of_find?_eq_some h, ?_⟩
  have := List.find?_some h
  simpa using this

theorem find?_name_of_nodup (l : List Resource)
    (hn : (l.map (fun r => r.name)).Nodup) {r : Resource} (hr : r ∈ l) :
    l.find? (fun x => x.name = r.name) = some r := by
  induction l with
  | nil => cases hr
  | cons a t ih =>
    rcases List.mem_cons.mp hr with rfl | hr'
    · simp [List.find?]
    · have hna : ¬(a.name = r.name) := by
        intro hcontr
        have hmem : r.name ∈ t.map (fun x => x.name) :=
          List.mem_map_of_mem _ hr'
        rw [List.map_cons, List.nodup_cons] at hn
        exact hn.1 (hcontr ▸ hmem)
      rw [List.find?_cons_of_neg _ (by simpa using hna)]
      exact ih (by rw [List.map_cons, List.nodup_cons] at hn; exact hn.2) hr'

theorem getResource_of_mem {s : RAGState}
    (hn : (s.resources.map (fun r => r.name)).Nodup) {r : Resource}
    (hr : r ∈ s.resources) : s.getResource r.name = some r :=
  find?_name_of_nodup s.resources hn hr

theorem ledgerInv_of_fields {s s' : RAGState} (h : LedgerInv s)
    (hres : s'.resources = s.resources) (ha : s'.assignments = s.assignments)
    (hw : s'.waitingRequests = s.waitingRequests) : LedgerInv s' := by
  unfold LedgerInv RAGState.getResource at h ⊢
  rw [hres, ha, hw]
  exact h

theorem getA_ensure_assign (s : RAGState) (rn k : String) :
    (getA (s.ensureResourceMaps rn).assignments k).getD [] =
      (getA s.assignments k).getD [] := by
  show (getA (if (getA s.assignments rn).isNone then
    setA s.assignments rn [] else s.assignments) k).getD [] = _
  split
  · next hnone =>
    by_cases hk : k = rn
    · subst hk
      rw [getA_setA_self]
      rw [Option.isNone_iff_eq_none] at hnone
      rw [hnone]
      rfl
    · rw [getA_setA_ne _ _ _ _ hk]
  · rfl

theorem getA_ensure_wait (s : RAGState) (rn k : String) :
    (getA (s.ensureResourceMaps rn).waitingRequests k).getD [] =
      (getA s.waitingRequests k).getD [] := by
  show (getA (if (getA s.waitingRequests rn).isNone then
    setA s.waitingRequests rn [] else s.waitingRequests) k).getD [] = _
  split
  · next hnone =>
    by_cases hk : k = rn
    · subst hk
      rw [getA_setA_self]
      rw [Option.isNone_iff_eq_none] at hnone
      rw [hnone]
      rfl
    · rw [getA_setA_ne _ _ _ _ hk]
  · rfl

theorem ledgerInv_ensure {s : RAGState} (rn : String) (h : LedgerInv s) :
    LedgerInv (s.ensureResourceMaps rn) := by
  obtain ⟨hn, h2, h3, h4, h5⟩ := h
  refine ⟨hn, ?_, ?_, ?_, ?_⟩
  · intro r hr
    rw [getA_ensure_assign]
    exact h2 r hr
  · intro k hk
    rw [getA_ensure_assign]
    exact h3 k hk
  · intro k hk
    rw [getA_ensure_wait]
    exact h4 k hk
  · intro k e he
    rw [getA_ensure_wait] at he
    exact h5 k e he

theorem sumVals_pos_of_mem {m : AssignMap} {e : String × Nat} (he : e ∈ m)
    (hne : e.2 ≠ 0) : 1 ≤ sumVals m := by
  induction m with
  | nil => cases he
  | cons a t ih =>
    rcases List.mem_cons.mp he with rfl | he'
    · simp only [sumVals, List.map_cons, List.sum_cons]
      omega
    · have := ih he'
      simp only [sumVals, List.map_cons, List.sum_cons] at this ⊢
      omega

/-- Replacing a single resource's assignment map with one whose sum does
not exceed the old sum and whose entries are nonzero preserves the
ledger invariant. -/
theorem ledgerInv_assign_update {s : RAGState} (h : LedgerInv s) (rn : String)
    (m' : AssignMap)
    (hsum : sumVals m' ≤ sumVals ((getA s.assignments rn).getD []))
    (hent : ∀ e ∈ m', e.2 ≠ 0) :
    LedgerInv { s with assignments := setA s.assignments rn m' } := by
  obtain ⟨hn, h2, h3, h4, h5⟩ := h
  refine ⟨hn, ?_, ?_, h4, h5⟩
  · intro r hr
    by_cases hk : r.name = rn
    · rw [hk, getA_setA_self]
      have hold := h2 r hr
      rw [hk] at hold
      exact ⟨le_trans hsum hold.1, by simpa using hent⟩
    · rw [getA_setA_ne _ _ _ _ hk]
      exact h2 r hr
  · intro k hk
    by_cases hkr : k = rn
    · subst hkr
      rw [getA_setA_self]
      have hold : (getA s.assignments k).getD [] = [] := h3 k hk
      rw [hold] at hsum
      simp only [Option.getD_some]
      by_cases hm : m' = []
      · exact hm
      · exfalso
        obtain ⟨e, he⟩ := List.exists_mem_of_ne_nil m' hm
        have := sumVals_pos_of_mem he (hent e he)
        have hz : sumVals ([] : AssignMap) = 0 := rfl
        omega
    · rw [getA_setA_ne _ _ _ _ hkr]
      exact h3 k hk

/-- Replacing a known resource's queue with entries that all request at
least one unit preserves the ledger invariant. -/
theorem ledgerInv_queue_set {s : RAGState} (h : LedgerInv s) (rn : String)
    (q' : List WaitEntry) (hknown : ¬ s.getResource rn = none)
    (hq' : ∀ e ∈ q', 1 ≤ e.count) :
    LedgerInv { s with waitingRequests := setA s.waitingRequests rn q' } := by
  obtain ⟨hn, h2, h3, h4, h5⟩ := h
  refine ⟨hn, h2, h3, ?_, ?_⟩
  · intro k hk
    have hkr : k ≠ rn := by
      intro hcontr
      subst hcontr
      exact hknown hk
    rw [getA_setA_ne _ _ _ _ hkr]
    exact h4 k hk
  · intro k e he
    by_cases hkr : k = rn
    · subst hkr
      rw [getA_setA_self] at he
      exact hq' e (by simpa using he)
    · rw [getA_setA_ne _ _ _ _ hkr] at he
      exact h5 k e he

theorem getResource_ne_none_of_avail {s : RAGState} {rn : String} {cnt : Nat}
    (hc : 1 ≤ cnt) (hsat : (cnt : Int) ≤ s.availableOf rn) :
    ¬ s.getResource rn = none := by
  intro hcontr
  simp only [RAGState.availableOf, hcontr] at hsat
  have : (1 : Int) ≤ cnt := by exact_mod_cast hc
  omega

/-- A grant of `cnt ≤ available` units preserves the ledger invariant. -/
theorem ledgerInv_grant_assign {s : RAGState} (h : LedgerInv s) (rn pn : String)
    (cnt : Nat) (hc : 1 ≤ cnt) (hsat : (cnt : Int) ≤ s.availableOf rn) :
    LedgerInv { s with assignments := setA s.assignments rn (setA ((getA s.assignments rn).getD []) pn (((getA ((getA s.assignments rn).getD []) pn).getD 0) + cnt)) } := by
  obtain ⟨hn, h2, h3, h4, h5⟩ := h
  cases hres : s.getResource rn with
  | none => exact absurd hres (getResource_ne_none_of_avail hc hsat)
  | some r0 =>
    obtain ⟨hr0mem, hr0name⟩ := getResource_mem hres
    unfold RAGState.availableOf at hsat
    rw [hres] at hsat
    refine ⟨hn, ?_, ?_, h4, h5⟩
    · intro r hr
      by_cases hk : r.name = rn
      · have hrr : s.getResource r.name = some r := getResource_of_mem hn hr
        rw [hk, hres] at hrr
        injection hrr with hrr
        subst hrr
        rw [hk, getA_setA_self]
        simp only [Option.getD_some]
        constructor
        · rw [sumVals_setA_bump]
          have hcast : sumVals ((getA s.assignments rn).getD []) + cnt ≤ r0.total := by
            push_cast at hsat
            omega
          exact hcast
        · intro e he
          rcases mem_setA he with rfl | he'
          · simp
            omega
          · have := h2 r0 hr0mem
            rw [hr0name] at this
            exact this.2 e he'
      · rw [getA_setA_ne _ _ _ _ hk]
        exact h2 r hr
    · intro k hk
      have hk' : s.getResource k = none := hk
      have hkr : k ≠ rn := by
        intro hcontr
        subst hcontr
        rw [hres] at hk'
        cases hk'
      rw [getA_setA_ne _ _ _ _ hkr]
      exact h3 k hk'

theorem ledgerInv_requestCommitGrant {s : RAGState} (h : LedgerInv s)
    (pn rn : String) (k : Nat) (hk : 1 ≤ k) (hsat : (k : Int) ≤ s.availableOf rn) :
    LedgerInv (requestCommitGrant s pn rn k).1 :=
  ledgerInv_of_fields (ledgerInv_grant_assign h rn pn k hk hsat) rfl rfl rfl

theorem ledgerInv_requestCommitQueue {s : RAGState} (h : LedgerInv s)
    (pn rn : String) (k : Nat) (hk : 1 ≤ k) (hknown : ¬ s.getResource rn = none) :
    LedgerInv (requestCommitQueue s pn rn k).1 := by
  have hq' : ∀ e ∈ ((getA s.waitingRequests rn).getD []) ++ [(⟨pn, k⟩ : WaitEntry)],
      1 ≤ e.count := by
    intro e he
    rcases List.mem_append.mp he with he | he
    · exact h.2.2.2.2 rn e he
    · rw [List.mem_singleton.mp he]
      exact hk
  exact ledgerInv_of_fields (ledgerInv_queue_set h rn _ hknown hq') rfl rfl rfl

theorem ledgerInv_grantFromQueue {s : RAGState} (h : LedgerInv s) (rn : String)
    (req : WaitEntry) (kept rest : List WaitEntry) (hc : 1 ≤ req.count)
    (hsat : (req.count : Int) ≤ s.availableOf rn)
    (hq' : ∀ e ∈ kept ++ rest, 1 ≤ e.count) :
    LedgerInv (grantFromQueue s rn req kept rest) := by
  have hknown := getResource_ne_none_of_avail hc hsat
  have hA := ledgerInv_grant_assign h rn req.process req.count hc hsat
  have hB := ledgerInv_queue_set hA rn (kept ++ rest) hknown hq'
  exact ledgerInv_of_fields hB rfl rfl rfl

theorem ledgerInv_ite_pushLog {c : Prop} [Decidable c] {s : RAGState}
    (h : LedgerInv s) (m : String) : LedgerInv (if c then s.pushLog m else s) := by
  split
  · exact ledgerInv_of_fields h rfl rfl rfl
  · exact h

theorem getResource_ite_pushLog {c : Prop} [Decidable c] (s : RAGState)
    (m : String) (k : String) :
    (if c then s.pushLog m else s).getResource k = s.getResource k := by
  split <;> rfl

theorem ledgerInv_tgwAux (rn : String) (rest : List WaitEntry) :
    ∀ (kept : List WaitEntry) (s : RAGState) (changed : Bool),
      LedgerInv s → getQ s rn = kept ++ rest →
      LedgerInv (tryGrantWaitingAux rn rest kept s changed).1 := by
  induction rest with
  | nil =>
    intro kept s changed h _
    simp only [tryGrantWaitingAux]
    exact h
  | cons req rest ih =>
    intro kept s changed h hq
    have hmem : req ∈ getQ s rn := by
      rw [hq]
      exact List.mem_append_right _ (List.mem_cons_self _ _)
    have hc : 1 ≤ req.count := h.2.2.2.2 rn req hmem
    have hkeptrest : ∀ e ∈ kept ++ rest, 1 ≤ e.count := by
      intro e he
      apply h.2.2.2.2 rn e
      show e ∈ getQ s rn
      rw [hq]
      rcases List.mem_append.mp he with he | he
      · exact List.mem_append_left _ he
      · exact List.mem_append_right _ (List.mem_cons_of_mem _ he)
    by_cases hsat : (req.count : Int) ≤ s.availableOf rn
    · by_cases hav : s.avoidance = true
      · by_cases hden :
          ((s.grantWouldCreateDefiniteCycle req.process rn req.count).hasCycle &&
           (s.grantWouldCreateDefiniteCycle req.process rn req.count).definite) = true
        · have haux : tryGrantWaitingAux rn (req :: rest) kept s changed =
              tryGrantWaitingAux rn rest (kept ++ [req]) s changed := by
            simp only [tryGrantWaitingAux]
            rw [if_pos hsat, if_pos hav, if_pos hden]
          rw [haux]
          exact ih (kept ++ [req]) s changed h (by rw [hq, List.append_cons])
        · have haux : tryGrantWaitingAux rn (req :: rest) kept s changed =
              tryGrantWaitingAux rn rest kept
                (grantFromQueue
                  (if ((s.grantWouldCreateDefiniteCycle req.process rn req.count).hasCycle &&
                      !(s.grantWouldCreateDefiniteCycle req.process rn req.count).definite) = true
                   then s.pushLog (queueAllowedLog req.process rn) else s)
                  rn req kept rest) true := by
            simp only [tryGrantWaitingAux]
            rw [if_pos hsat, if_pos hav, if_neg hden]
          rw [haux]
          have h1 := ledgerInv_ite_pushLog (c :=
            ((s.grantWouldCreateDefiniteCycle req.process rn req.count).hasCycle &&
             !(s.grantWouldCreateDefiniteCycle req.process rn req.count).definite) = true)
            h (queueAllowedLog req.process rn)
          have hsat1 : (req.count : Int) ≤
              (if ((s.grantWouldCreateDefiniteCycle req.process rn req.count).hasCycle &&
                  !(s.grantWouldCreateDefiniteCycle req.process rn req.count).definite) = true
               then s.pushLog (queueAllowedLog req.process rn) else s).availableOf rn := by
            rw [ite_pushLog_availableOf]
            exact hsat
          have h2 := ledgerInv_grantFromQueue h1 rn req kept rest hc hsat1 hkeptrest
          exact ih kept _ true h2 (grantFromQueue_queue _ _ _ _ _)
      · have haux : tryGrantWaitingAux rn (req :: rest) kept s changed =
            tryGrantWaitingAux rn rest kept (grantFromQueue s rn req kept rest) true := by
          simp only [tryGrantWaitingAux]
          rw [if_pos hsat, if_neg hav]
        rw [haux]
        have h2 := ledgerInv_grantFromQueue h rn req kept rest hc hsat hkeptrest
        exact ih kept _ true h2 (grantFromQueue_queue _ _ _ _ _)
    · have haux : tryGrantWaitingAux rn (req :: rest) kept s changed =
          tryGrantWaitingAux rn rest (kept ++ [req]) s changed := by
        simp only [tryGrantWaitingAux]
        rw [if_neg hsat]
      rw [haux]
      exact ih (kept ++ [req]) s changed h (by rw [hq, List.append_cons])

theorem ledgerInv_tryGrantWaiting {s : RAGState} (h : LedgerInv s) (rn : String) :
    LedgerInv (s.tryGrantWaiting rn).1 := by
  show LedgerInv (tryGrantWaitingAux rn (getQ (s.ensureResourceMaps rn) rn) []
    (s.ensureResourceMaps rn) false).1
  exact ledgerInv_tgwAux rn _ [] _ false (ledgerInv_ensure rn h)
    (List.nil_append _).symm

theorem ledgerInv_release {s : RAGState} (h : LedgerInv s) (pn rn : String)
    (c : Option Int) : LedgerInv (s.release pn rn c).1 := by
  unfold RAGState.release
  cases hP : s.getProcess pn with
  | none =>
    simp only [hP]
    exact h
  | some p =>
    cases hR : s.getResource rn with
    | none =>
      simp only [hP, hR]
      exact h
    | some r =>
      simp only [hP, hR]
      have h1 := ledgerInv_ensure rn h
      split
      · exact ledgerInv_of_fields h1 rfl rfl rfl
      · next hheld =>
        set m := (getA (s.ensureResourceMaps rn).assignments rn).getD [] with hm
        set held := (getA m pn).getD 0 with hheldD
        set rel := min (clampCount c) held with hrel
        have hrmem := getResource_mem (show (s.ensureResourceMaps rn).getResource rn = some r from hR)
        have hent_old : ∀ e ∈ m, e.2 ≠ 0 := by
          have := (h1.2.1 r hrmem.1).2
          rw [hrmem.2] at this
          exact this
        have hheld_le : held ≤ sumVals m := by
          rw [hheldD]
          exact getA_getD_le_sumVals m pn
        have hsum : sumVals (if held - rel = 0 then delA (setA m pn (held - rel)) pn
            else setA m pn (held - rel)) ≤ sumVals m := by
          split
          · next hz =>
            rw [hz, delA_setA]
            have := sumVals_delA m pn
            omega
          · have := sumVals_setA m pn (held - rel)
            omega
        have hent : ∀ e ∈ (if held - rel = 0 then delA (setA m pn (held - rel)) pn
            else setA m pn (held - rel)), e.2 ≠ 0 := by
          split
          · next hz =>
            intro e he
            rw [hz, delA_setA] at he
            exact hent_old e (mem_delA he)
          · next hz =>
            intro e he
            rcases mem_setA he with rfl | he'
            · simpa using hz
            · exact hent_old e he'
        have h2 := ledgerInv_assign_update h1 rn _ hsum hent
        refine ledgerInv_tryGrantWaiting ?_ rn
        exact ledgerInv_of_fields h2 rfl rfl rfl

theorem ledgerInv_request {s : RAGState} (h : LedgerInv s) (pn rn : String)
    (c : Option Int) (enq : Bool) : LedgerInv (s.request pn rn c enq).1 := by
  unfold RAGState.request
  cases hP : s.getProcess pn with
  | none =>
    simp only [hP]
    exact h
  | some p =>
    cases hR : s.getResource rn with
    | none =>
      simp only [hP, hR]
      exact h
    | some r =>
      simp only [hP, hR]
      have h1 := ledgerInv_ensure rn h
      have hknown : ¬ (s.ensureResourceMaps rn).getResource rn = none := by
        intro hcontr
        have hc' : s.getResource rn = none := hcontr
        rw [hR] at hc'
        cases hc'
      split
      · next hcg =>
        split
        · split
          · exact ledgerInv_of_fields h1 rfl rfl rfl
          · refine ledgerInv_requestCommitGrant (ledgerInv_ite_pushLog h1 _) pn rn
              (clampCount c) (clampCount_pos c) ?_
            rw [ite_pushLog_availableOf]
            exact hcg
        · exact ledgerInv_requestCommitGrant h1 pn rn (clampCount c)
            (clampCount_pos c) hcg
      · split
        · split
          · split
            · exact ledgerInv_of_fields h1 rfl rfl rfl
            · refine ledgerInv_requestCommitQueue (ledgerInv_ite_pushLog h1 _) pn rn
                (clampCount c) (clampCount_pos c) ?_
              rw [getResource_ite_pushLog]
              exact hknown
          · exact ledgerInv_requestCommitQueue h1 pn rn (clampCount c)
              (clampCount_pos c) hknown
        · exact h1

theorem ledgerInv_tgwFold (l : List Resource) :
    ∀ acc : RAGState × Bool, LedgerInv acc.1 →
      LedgerInv (List.foldl (fun (acc : RAGState × Bool) (r : Resource) =>
        ((RAGState.tryGrantWaiting acc.1 r.name).1,
         (RAGState.tryGrantWaiting acc.1 r.name).2 || acc.2)) acc l).1 := by
  induction l with
  | nil => intro acc h; exact h
  | cons a t ih =>
    intro acc h
    exact ih _ (ledgerInv_tryGrantWaiting h a.name)

theorem ledgerInv_stepForward {s : RAGState} (h : LedgerInv s) (ag : Bool) :
    LedgerInv (s.stepForward ag) := by
  have hcore : LedgerInv (s.stepForwardCore ag) := by
    unfold RAGState.stepForwardCore
    cases hev : ({ s with step := s.step + 1 } : RAGState).eventQueue with
    | nil =>
      simp only [hev]
      split
      · split
        · refine ledgerInv_tgwFold _ _ ?_
          exact ledgerInv_of_fields h rfl rfl rfl
        · refine ledgerInv_of_fields (ledgerInv_tgwFold _ _ ?_) rfl rfl rfl
          exact ledgerInv_of_fields h rfl rfl rfl
      · exact ledgerInv_of_fields h rfl rfl rfl
    | cons evt rest =>
      simp only [hev]
      split
      · refine ledgerInv_request ?_ _ _ _ _
        exact ledgerInv_of_fields h rfl rfl rfl
      · split
        · refine ledgerInv_release ?_ _ _ _
          exact ledgerInv_of_fields h rfl rfl rfl
        · exact ledgerInv_of_fields h rfl rfl rfl
  exact ledgerInv_of_fields hcore rfl rfl rfl

theorem ledgerInv_addProcess {s : RAGState} (h : LedgerInv s) (name : String) :
    LedgerInv (s.addProcess name).1 := by
  unfold RAGState.addProcess
  split
  · exact h
  · exact ledgerInv_of_fields h rfl rfl rfl

theorem ledgerInv_addResource {s : RAGState} (h : LedgerInv s)
    (name : String) (inst : Option Int) : LedgerInv (s.addResource name inst).1 := by
  unfold RAGState.addResource
  split
  · exact h
  · next hcond =>
    have hnone : s.getResource name = none := by
      rcases Option.eq_none_or_eq_some (s.getResource name) with hx | ⟨v, hx⟩
      · exact hx
      · exact absurd (Or.inr (by rw [hx]; rfl)) hcond
    refine ledgerInv_ensure name ?_
    obtain ⟨hn, h2, h3, h4, h5⟩ := h
    have hnotmem : name ∉ s.resources.map (fun r => r.name) := by
      intro hcontr
      rw [List.mem_map] at hcontr
      obtain ⟨r, hrmem, hrname⟩ := hcontr
      have hfind : s.resources.find? (fun x => x.name = name) = none := hnone
      rw [List.find?_eq_none] at hfind
      exact hfind r hrmem (by simpa using hrname)
    refine ⟨?_, ?_, ?_, ?_, h5⟩
    · show (List.map (fun r => r.name)
        (s.resources ++ [(⟨name, clampCount inst⟩ : Resource)])).Nodup
      rw [List.map_append, List.nodup_append]
      refine ⟨hn, by simp, ?_⟩
      intro a ha hb
      simp only [List.map_cons, List.map_nil, List.mem_singleton] at hb
      subst hb
      exact hnotmem ha
    · intro r hr
      rcases List.mem_append.mp hr with hr | hr
      · exact h2 r hr
      · have hr' : r = ⟨name, clampCount inst⟩ := by simpa using hr
        subst hr'
        constructor
        · show sumVals ((getA s.assignments name).getD []) ≤ clampCount inst
          rw [h3 name hnone]
          exact Nat.zero_le _
        · intro e he
          have he' : e ∈ (getA s.assignments name).getD [] := he
          rw [h3 name hnone] at he'
          cases he'
    · intro k hk
      have hk2 : List.find? (fun x => x.name = k)
          (s.resources ++ [(⟨name, clampCount inst⟩ : Resource)]) = none := hk
      have hk' : s.getResource k = none := by
        show List.find? (fun x => x.name = k) s.resources = none
        rw [List.find?_eq_none] at hk2 ⊢
        intro x hx
        exact hk2 x (List.mem_append_left _ hx)
      exact h3 k hk'
    · intro k hk
      have hk2 : List.find? (fun x => x.name = k)
          (s.resources ++ [(⟨name, clampCount inst⟩ : Resource)]) = none := hk
      have hk' : s.getResource k = none := by
        show List.find? (fun x => x.name = k) s.resources = none
        rw [List.find?_eq_none] at hk2 ⊢
        intro x hx
        exact hk2 x (List.mem_append_left _ hx)
      exact h4 k hk'

theorem ledgerInv_init : LedgerInv RAGState.init := by
  refine ⟨by simp [RAGState.init], by simp [RAGState.init], ?_, ?_, ?_⟩
  · intro k _
    rfl
  · intro k _
    rfl
  · intro k e he
    simp [RAGState.init, getA] at he

theorem ledgerInv_reachable {s : RAGState} (h : Reachable s) : LedgerInv s := by
  induction h with
  | init => exact ledgerInv_init
  | addProcess name _ ih => exact ledgerInv_addProcess ih name
  | addResource name inst _ ih => exact ledgerInv_addResource ih name inst
  | request pn rn c enq _ ih => exact ledgerInv_request ih pn rn c enq
  | release pn rn c _ ih => exact ledgerInv_release ih pn rn c
  | tryGrantWaiting rn _ ih => exact ledgerInv_tryGrantWaiting ih rn
  | stepForward ag _ ih => exact ledgerInv_stepForward ih ag
  | setAvoidance b _ ih => exact ledgerInv_of_fields ih rfl rfl rfl
  | enqueueEvent e _ ih => exact ledgerInv_of_fields ih rfl rfl rfl
  | clearEvents _ ih => exact ledgerInv_of_fields ih rfl rfl rfl

/-- C3: in every state reachable from the empty state through the public
operations, every resource's recorded held counts sum to at most its
total number of instances, and the assignment ledger holds no entry with
count 0. -/
theorem ledger_invariant_reachable (s : RAGState) (h : Reachable s) :
    ∀ r ∈ s.resources, sumVals ((getA s.assignments r.name).getD []) ≤ r.total ∧
      ∀ e ∈ (getA s.assignments r.name).getD [], e.2 ≠ 0 :=
  (ledgerInv_reachable h).2.1

theorem ledger_invariant_reachable_w :
    sumVals ((getA sAB.assignments "R1").getD []) ≤ 1 := by
  have hre : Reachable sAB :=
    Reachable.request "P1" "R2" (some 1) true
      (Reachable.request "P2" "R2" (some 1) true
        (Reachable.request "P1" "R1" (some 1) true
          (Reachable.addResource "R2" (some 1)
            (Reachable.addResource "R1" (some 1)
              (Reachable.addProcess "P2"
                (Reachable.addProcess "P1"
                  (Reachable.setAvoidance true Reachable.init)))))))
  exact (ledger_invariant_reachable sAB hre ⟨"R1", 1⟩ (by decide)).1

/- ==================== C4: step/undo round trip ==================== -/

theorem snapObs_serialize (s : RAGState) : snapObs s.serialize = stateObs s := by
  unfold snapObs stateObs RAGState.serialize deepClone
  simp [map_process_eta]

theorem stateObs_fromData (d : Snapshot) : stateObs (RAGState.fromData d) = snapObs d := by
  unfold snapObs stateObs RAGState.fromData deepClone
  simp [map_process_eta]

theorem simInv_snapshot (sim : Simulator) : SimInv sim.snapshot := by
  unfold Simulator.snapshot SimInv
  dsimp only
  split
  · next hlen =>
    refine ⟨sim.history.drop 1, sim.state.serialize, ?_, snapObs_serialize _⟩
    apply List.drop_append_of_le_length
    simp only [List.length_append, List.length_cons, List.length_nil] at hlen
    omega
  · exact ⟨sim.history, sim.state.serialize, rfl, snapObs_serialize _⟩

theorem simInv_reachable {sim : Simulator} (h : SimReachable sim) : SimInv sim := by
  induction h with
  | init => exact ⟨[], RAGState.init.serialize, rfl, snapObs_serialize _⟩
  | setAvoidance b hp ih =>
    obtain ⟨hl, x, hh, ho⟩ := ih
    exact ⟨hl, x, hh, ho⟩
  | setSpeed v hp ih =>
    obtain ⟨hl, x, hh, ho⟩ := ih
    exact ⟨hl, x, hh, ho⟩
  | stepForward ag hp ih => exact simInv_snapshot _
  | stepBackward hp ih =>
    rename_i sim0
    obtain ⟨hl, x, hh, ho⟩ := ih
    unfold Simulator.stepBackward
    dsimp only
    split
    · next hlen =>
      have hdrop : sim0.history.dropLast = hl := by
        rw [hh]
        exact List.dropLast_concat
      have hlne : hl ≠ [] := by
        intro hcontr
        rw [hh, hcontr] at hlen
        simp at hlen
      rcases List.eq_nil_or_concat hl with hnil | ⟨hl2, x2, hx2⟩
      · exact absurd hnil hlne
      · rw [List.concat_eq_append] at hx2
        rw [hdrop, hx2, List.getLast?_concat]
        exact ⟨hl2, x2, rfl, (stateObs_fromData x2).symm⟩
    · exact ⟨hl, x, hh, ho⟩
  | resetToInitial hp ih =>
    rename_i sim0
    obtain ⟨hl, x, hh, ho⟩ := ih
    unfold Simulator.resetToInitial
    cases hhead : sim0.history.head? with
    | none =>
      simp only [hhead]
      exact ⟨hl, x, hh, ho⟩
    | some first =>
      simp only [hhead]
      exact ⟨[], first, rfl, (stateObs_fromData first).symm⟩
  | hardReset hp ih => exact ⟨[], RAGState.init.serialize, rfl, snapObs_serialize _⟩
  | commit s' hp ih => exact simInv_snapshot _
  | baseline hp ih =>
    rename_i sim0
    exact ⟨[], sim0.state.serialize, rfl, snapObs_serialize _⟩
  | logNote m hp ih =>
    obtain ⟨hl, x, hh, ho⟩ := ih
    exact ⟨hl, x, hh, ho⟩

/-- C4: for a simulator constructible through the `Simulator` interface
whose history has not reached its cap, `stepForward` followed immediately
by `stepBackward` restores a state observationally identical to the
pre-step state: same assignments, same wait queues, same step counter,
same process list (names and states). -/
theorem step_roundtrip (sim : Simulator) (h : SimReachable sim)
    (hcap : sim.history.length < 1000) (ag : Bool) :
    stateObs ((sim.stepForward ag).stepBackward).state = stateObs sim.state := by
  obtain ⟨hl, x, hh, ho⟩ := simInv_reachable h
  have hnotrim : ¬ (1000 <
      (sim.history ++ [(sim.state.stepForward ag).serialize]).length) := by
    simp only [List.length_append, List.length_cons, List.length_nil]
    omega
  have hh2 : (sim.stepForward ag).history =
      sim.history ++ [(sim.state.stepForward ag).serialize] := by
    unfold Simulator.stepForward Simulator.snapshot
    dsimp only
    rw [if_neg hnotrim]
  have hst2 : (sim.stepForward ag).state = sim.state.stepForward ag := rfl
  have hlen2 : 1 < (sim.stepForward ag).history.length := by
    rw [hh2]
    simp only [List.length_append, List.length_cons, List.length_nil]
    rw [hh]
    simp only [List.length_append, List.length_cons, List.length_nil]
    omega
  unfold Simulator.stepBackward
  dsimp only
  rw [if_pos hlen2, hh2, List.dropLast_concat, hh, List.getLast?_concat]
  show stateObs (RAGState.fromData x) = stateObs sim.state
  rw [stateObs_fromData, ho]

theorem step_roundtrip_w :
    stateObs ((Simulator.new.stepForward true).stepBackward).state =
      stateObs Simulator.new.state :=
  step_roundtrip Simulator.new SimReachable.init (by decide) true
